import Mathlib

/-!
Verification development for the `fli` command-line parsing library.

This file gives a shallow embedding of the core parsing engine
(`src/option_parser/value_types.rs`, `src/option_parser/parse_state.rs`,
`src/option_parser/option_parser.rs`, `src/option_parser/input_parser.rs`,
`src/command.rs`) and proves properties of the embedded definitions.

Modelling conventions:
* Rust `i64` is `Int` with an explicit range check against `2^63`;
  `usize::MAX` is `2^64 - 1`.
* Rust `f64` is Lean `Float`; the `str::parse::<f64>` grammar is modelled
  by `parseF64` below.  No theorem in this file depends on floats.
* `HashMap<String, usize>` is an association list with insert-overwrite
  semantics (`StrMap`); iteration order of `HashMap` keys is modelled as
  insertion order.
* Mutation is explicit state passing: functions that mutate `&mut self`
  in Rust return the updated value, and fallible code returns `Except`.
* `ParseState::set_next_mode` returns `Result<_, String>` in the source
  while `prepare` propagates its error with `?` into `FliError`; the
  snapshot contains no `From<String> for FliError` impl, so the
  propagated error is modelled as `FliError.InvalidStateTransition`
  carrying the two state names (the variant `error.rs` provides for this
  purpose).  Likewise `value_types.rs` constructs a `FliError::ValueParseError`
  variant that `error.rs` does not declare; the model includes that
  constructor as used by `value_types.rs`.
* Callbacks are opaque function pointers in Rust; they are modelled as
  numeric identifiers, and running a command returns the list of invoked
  callback identifiers.
-/

namespace Fli

/-! ### Value (src/option_parser/value_types.rs) -/

/-- Typed value parsed from command-line arguments. -/
inductive Value where
  | Str (s : String)
  | Int (i : Int)
  | Float (q : Float)
  | Bool (b : Bool)
  deriving Repr

/-- Rust `usize::MAX` on a 64-bit target (`2 ^ 64 - 1`). -/
def USIZE_MAX : Nat := 18446744073709551615

/-- Bound for `i64` (`2 ^ 63`): a parsed value must lie in
`[-I64_BOUND, I64_BOUND - 1]`. -/
def I64_BOUND : Int := 9223372036854775808

/-- One character of an unsigned decimal literal. -/
def digitVal (c : Char) : Option Nat :=
  if c.isDigit then some (c.toNat - '0'.toNat) else none

/-- Parse a nonempty run of decimal digits. -/
def parseDigits (cs : List Char) : Option Nat :=
  match cs with
  | [] => none
  | _ :: _ =>
    cs.foldlM (fun acc c => (digitVal c).map (fun d => acc * 10 + d)) 0

/-- Model of Rust `str::parse::<i64>`: optional sign, a nonempty digit
run, and a range check against `i64`. -/
def parseI64 (s : String) : Option Int :=
  let cs := s.toList
  let signed : Option (Bool × List Char) :=
    match cs with
    | '+' :: rest => some (false, rest)
    | '-' :: rest => some (true, rest)
    | rest => some (false, rest)
  match signed with
  | none => none
  | some (neg, digits) =>
    match parseDigits digits with
    | none => none
    | some n =>
      let v : Int := if neg then -(n : Int) else (n : Int)
      if -I64_BOUND ≤ v ∧ v < I64_BOUND then some v else none

/-- Model of Rust `str::parse::<f64>` (decimal or scientific notation,
and the `inf`/`infinity`/`nan` keywords).  Present only so that the
`Value.Float` arm of re-typing is defined; no theorem evaluates it. -/
def parseF64 (s : String) : Option Float :=
  let lower := s.toLower
  let core (t : String) (neg : Bool) : Option Float :=
    if t = "inf" ∨ t = "infinity" then
      some (if neg then -(1.0 / 0.0) else (1.0 / 0.0))
    else if t = "nan" then some (0.0 / 0.0)
    else
      let parts := t.splitOn "e"
      let mantissaExp : Option (String × Int) :=
        match parts with
        | [m] => some (m, 0)
        | [m, e] => (parseI64 e).map (fun v => (m, v))
        | _ => none
      match mantissaExp with
      | none => none
      | some (m, e) =>
        match m.splitOn "." with
        | [w] =>
          (parseDigits w.toList).map (fun n =>
            let base := Float.ofScientific n false 0
            let f := base * (10.0 : Float) ^ (Float.ofInt e)
            if neg then -f else f)
        | [w, f] =>
          if w.toList = [] ∧ f.toList = [] then none
          else
            let digits := w ++ f
            (parseDigits digits.toList).map (fun n =>
              let shifted : Int := e - (f.length : Int)
              let base := Float.ofScientific n false 0
              let r := base * (10.0 : Float) ^ (Float.ofInt shifted)
              if neg then -r else r)
        | _ => none
  match lower.toList with
  | '+' :: rest => core (String.mk rest) false
  | '-' :: rest => core (String.mk rest) true
  | _ => core lower false

/-- Case-insensitive boolean token model, per `value_types.rs`. -/
def parseBoolToken (s : String) : Option Bool :=
  let lower := s.toLower
  if lower = "true" ∨ lower = "t" ∨ lower = "1" ∨ lower = "yes" ∨ lower = "y" then
    some true
  else if lower = "false" ∨ lower = "f" ∨ lower = "0" ∨ lower = "no" ∨ lower = "n" then
    some false
  else none

/-! ### ValueTypes (src/option_parser/value_types.rs) -/

/-- Arity and requiredness contract of an option, with its current /
default value payload. -/
inductive ValueTypes where
  | RequiredSingle (default : Value)
  | OptionalSingle (default : Option Value)
  | RequiredMultiple (collected : List Value) (expectedCount : Option Nat)
  | OptionalMultiple (collected : Option (List Value)) (maxCount : Option Nat)
  | None
  deriving Repr

/-- Errors of the library, per `src/error.rs`.  `ValueParseError` is the
variant constructed by `value_types.rs` (absent from `error.rs` in this
snapshot), and `InvalidStateTransition` carries the two state names of a
rejected `set_next_mode` call. -/
inductive FliError where
  | CommandMismatch (expected actual : String)
  | UnknownCommand (command : String) (available : List String)
  | UnknownOption (flag : String)
  | MissingValue (option : String)
  | UnexpectedValue (option value : String)
  | ValueCountMismatch (option : String) (expected actual : Nat)
  | InvalidValue (option value reason : String)
  | ValueParseError (value expectedType reason : String)
  | InvalidStateTransition (src dst : String)
  | UnexpectedToken (token : String) (position : Nat)
  | InvalidOptionConfig (option reason : String)
  | InvalidCommandConfig (reason : String)
  | InvalidFlagFormat (flag : String)
  | OptionNotFound (flag : String)
  | ParserNotPrepared
  | Internal (msg : String)
  | InvalidUsage (msg : String)
  deriving Repr

/-- `Value::replace_with_expected_value`: re-type a raw token following
the current variant of the value, returning the new value. -/
def Value.replaceWithExpectedValue (v : Value) (newValue : String) : Except FliError Value :=
  match v with
  | .Str _ => .ok (.Str newValue)
  | .Int _ =>
    match parseI64 newValue with
    | some n => .ok (.Int n)
    | none =>
      .error (.ValueParseError newValue "integer (i64)" "invalid i64 literal")
  | .Float _ =>
    match parseF64 newValue with
    | some f => .ok (.Float f)
    | none =>
      .error (.ValueParseError newValue "float (f64)" "invalid f64 literal")
  | .Bool _ =>
    match parseBoolToken newValue with
    | some b => .ok (.Bool b)
    | none =>
      .error (.ValueParseError newValue "boolean"
        "expected one of: true, false, t, f, 1, 0, yes, no, y, n (case-insensitive)")

/-- `ValueTypes::expects_value`: true for every variant but `None`. -/
def ValueTypes.expectsValue (v : ValueTypes) : Bool :=
  match v with
  | .None => false
  | _ => true

/-- `ValueTypes::as_str`: extract a single string value. -/
def ValueTypes.asStr (v : ValueTypes) : Option String :=
  match v with
  | .RequiredSingle (.Str s) => some s
  | .OptionalSingle (some (.Str s)) => some s
  | _ => none

/-! ### ParseState (src/option_parser/parse_state.rs) -/

/-- Parsing state machine. -/
inductive ParseState where
  | Start
  | InCommand
  | InOption
  | AcceptingValue (optionName : String) (expectedType : ValueTypes)
  | Breaking
  | InArgument
  | End
  deriving Repr

/-- Constructor name of a state, used in transition error payloads. -/
def ParseState.stateName (s : ParseState) : String :=
  match s with
  | .Start => "Start"
  | .InCommand => "InCommand"
  | .InOption => "InOption"
  | .AcceptingValue _ _ => "AcceptingValue"
  | .Breaking => "Breaking"
  | .InArgument => "InArgument"
  | .End => "End"

/-- `ParseState::can_go_to_next`, transcribed from the source match. -/
def ParseState.canGoToNext (s next : ParseState) : Bool :=
  match next with
  | .Start => false
  | .InCommand =>
    match s with
    | .Start | .InCommand => true
    | _ => false
  | .InOption =>
    match s with
    | .Start | .InCommand | .InArgument | .InOption | .AcceptingValue _ _ => true
    | _ => false
  | .AcceptingValue _ _ =>
    match s with
    | .InOption => true
    | _ => false
  | .InArgument =>
    match s with
    | .Start | .InCommand | .Breaking | .InArgument => true
    | _ => false
  | .Breaking =>
    match s with
    | .InOption | .AcceptingValue _ _ => true
    | _ => false
  | .End =>
    match s with
    | .Start => false
    | _ => true

/-- `ParseState::set_next_mode`: move to `next` when the transition is
legal, otherwise report the rejected transition. -/
def ParseState.setNextMode (s next : ParseState) : Except FliError ParseState :=
  if s.canGoToNext next then .ok next
  else .error (.InvalidStateTransition s.stateName next.stateName)

/-! ### Flag maps

`HashMap<String, usize>` as an association list; `insert` overwrites the
previous binding of the key. -/

/-- Association-list model of `HashMap<String, usize>`. -/
def StrMap : Type := List (String × Nat)

/-- Empty map. -/
def StrMap.empty : StrMap := []

/-- `HashMap::insert`: overwrite any previous binding of `k`. -/
def StrMap.insert (m : StrMap) (k : String) (v : Nat) : StrMap :=
  (k, v) :: m.filter (fun p => p.1 ≠ k)

/-- `HashMap::get`. -/
def StrMap.find? (m : StrMap) (k : String) : Option Nat :=
  match List.find? (fun p => p.1 == k) m with
  | some p => some p.2
  | none => none

/-- `HashMap::contains_key`. -/
def StrMap.containsKey (m : StrMap) (k : String) : Bool :=
  (StrMap.find? m k).isSome

/-! ### Option registry (src/option_parser/option_parser.rs) -/

/-- One registered option: identity, flags, description, current value. -/
structure SingleOption where
  name : String
  description : String
  shortFlag : String
  longFlag : String
  value : ValueTypes
  deriving Repr

/-- Registry of options for one command node (`CommandOptionsParser`). -/
structure CommandOptions where
  options : List SingleOption
  shortOptionMap : StrMap
  longOptionMap : StrMap
  inheritableFlags : List Nat

/-- `CommandOptionsParser::new`. -/
def CommandOptions.new : CommandOptions :=
  { options := [], shortOptionMap := StrMap.empty,
    longOptionMap := StrMap.empty, inheritableFlags := [] }

/-- `get_option_position`: short map first, then long map. -/
def CommandOptions.getOptionPosition (p : CommandOptions) (flag : String) : Option Nat :=
  match p.shortOptionMap.find? flag with
  | some i => some i
  | none =>
    match p.longOptionMap.find? flag with
    | some i => some i
    | none => none

/-- `mark_inheritable`: record the option's index as inheritable, once. -/
def CommandOptions.markInheritable (p : CommandOptions) (flag : String) :
    Except FliError CommandOptions :=
  match p.getOptionPosition flag with
  | some index =>
    if p.inheritableFlags.contains index then .ok p
    else .ok { p with inheritableFlags := p.inheritableFlags ++ [index] }
  | none => .error (.OptionNotFound flag)

/-- `mark_inheritable_many`: stop at the first failure, earlier marks kept. -/
def CommandOptions.markInheritableMany (p : CommandOptions) (flags : List String) :
    Except FliError CommandOptions :=
  match flags with
  | [] => .ok p
  | f :: rest => do
    let p1 ← p.markInheritable f
    p1.markInheritableMany rest

/-- `update_option_value`: replace the stored value of a registered flag. -/
def CommandOptions.updateOptionValue (p : CommandOptions) (flag : String)
    (value : ValueTypes) : Except FliError CommandOptions :=
  match p.getOptionPosition flag with
  | some index =>
    match p.options.get? index with
    | some opt =>
      .ok { p with options := p.options.set index { opt with value := value } }
    | none => .error (.OptionNotFound flag)
  | none => .error (.OptionNotFound flag)

/-- `add_option`: append the option and point both flag maps at it
(silently overwriting colliding flags). -/
def CommandOptions.addOption (p : CommandOptions) (option : SingleOption) :
    CommandOptions :=
  let index := p.options.length
  { p with
    shortOptionMap := p.shortOptionMap.insert option.shortFlag index,
    longOptionMap := p.longOptionMap.insert option.longFlag index,
    options := p.options ++ [option] }

/-- `get_option_by_short_flag`. -/
def CommandOptions.getOptionByShortFlag (p : CommandOptions) (flag : String) :
    Option SingleOption :=
  match p.shortOptionMap.find? flag with
  | some index => p.options.get? index
  | none => none

/-- `get_option_by_long_flag`. -/
def CommandOptions.getOptionByLongFlag (p : CommandOptions) (flag : String) :
    Option SingleOption :=
  match p.longOptionMap.find? flag with
  | some index => p.options.get? index
  | none => none

/-- `has_option`: the flag is a key of either map. -/
def CommandOptions.hasOption (p : CommandOptions) (flag : String) : Bool :=
  p.shortOptionMap.containsKey flag || p.longOptionMap.containsKey flag

/-- `get_option_expected_value_type`: short lookup, then long lookup. -/
def CommandOptions.getOptionExpectedValueType (p : CommandOptions) (flag : String) :
    Option ValueTypes :=
  match p.getOptionByShortFlag flag with
  | some opt => some opt.value
  | none =>
    match p.getOptionByLongFlag flag with
    | some opt => some opt.value
    | none => none

/-- Builder around a registry (`CommandOptionsParserBuilder`); `build`
returns the contained registry. -/
structure CommandOptionsBuilder where
  optionRegistry : CommandOptions

/-- `CommandOptionsParserBuilder::new`. -/
def CommandOptionsBuilder.new : CommandOptionsBuilder :=
  { optionRegistry := CommandOptions.new }

/-- Builder `add_option`: construct the `SingleOption` and register it. -/
def CommandOptionsBuilder.addOption (b : CommandOptionsBuilder)
    (name description shortFlag longFlag : String) (value : ValueTypes) :
    CommandOptionsBuilder :=
  { optionRegistry := b.optionRegistry.addOption
      { name := name, description := description, shortFlag := shortFlag,
        longFlag := longFlag, value := value } }

/-- `build`. -/
def CommandOptionsBuilder.build (b : CommandOptionsBuilder) : CommandOptions :=
  b.optionRegistry

/-- `inheritable_options_builder`: a new, independent builder populated
with clones of every inheritable option. -/
def CommandOptions.inheritableOptionsBuilder (p : CommandOptions) :
    CommandOptionsBuilder :=
  p.inheritableFlags.foldl
    (fun b idx =>
      match p.options.get? idx with
      | some opt =>
        b.addOption opt.name opt.description opt.shortFlag opt.longFlag opt.value
      | none => b)
    CommandOptionsBuilder.new

/-! ### Command tree (src/command.rs) -/

/-- Option with an immediate-dispatch callback (`PreservedOption`); the
callback function pointer is modelled by a numeric identifier. -/
structure PreservedOptionEntry where
  longFlag : String
  shortFlag : String
  valueType : ValueTypes
  callback : Nat

/-- Identifier of the auto-installed help callback. -/
def helpCallbackId : Nat := 0

/-- A command node (`FliCommand`): name, description, option registry
builder, child commands, optional main callback, preserved-option table
with its own flag maps, and the expected positional-argument count. -/
inductive FliCommand where
  | mk
    (name description : String)
    (optionBuilder : CommandOptionsBuilder)
    (subCommands : List (String × FliCommand))
    (callback : Option Nat)
    (preservedOptions : List PreservedOptionEntry)
    (preservedShortFlags preservedLongFlags : StrMap)
    (expectedPositionalArgs : Nat)
    (inheritableOptions : List Nat)

/-- Command name. -/
def FliCommand.name : FliCommand → String
  | .mk n _ _ _ _ _ _ _ _ _ => n

/-- Command description. -/
def FliCommand.description : FliCommand → String
  | .mk _ d _ _ _ _ _ _ _ _ => d

/-- The option registry builder of the node. -/
def FliCommand.optionBuilder : FliCommand → CommandOptionsBuilder
  | .mk _ _ b _ _ _ _ _ _ _ => b

/-- Child command map (insertion-ordered association list). -/
def FliCommand.subCommands : FliCommand → List (String × FliCommand)
  | .mk _ _ _ s _ _ _ _ _ _ => s

/-- Main callback identifier, when set. -/
def FliCommand.callback : FliCommand → Option Nat
  | .mk _ _ _ _ c _ _ _ _ _ => c

/-- Preserved-option list. -/
def FliCommand.preservedOptions : FliCommand → List PreservedOptionEntry
  | .mk _ _ _ _ _ p _ _ _ _ => p

/-- Preserved short-flag map. -/
def FliCommand.preservedShortFlags : FliCommand → StrMap
  | .mk _ _ _ _ _ _ s _ _ _ => s

/-- Preserved long-flag map. -/
def FliCommand.preservedLongFlags : FliCommand → StrMap
  | .mk _ _ _ _ _ _ _ l _ _ => l

/-- Expected positional-argument count. -/
def FliCommand.expectedPositionalArgs : FliCommand → Nat
  | .mk _ _ _ _ _ _ _ _ e _ => e

/-- `get_option_parser`: build (return) the registry inside the builder. -/
def FliCommand.optionRegistry (c : FliCommand) : CommandOptions :=
  c.optionBuilder.build

/-- Replace the node's builder. -/
def FliCommand.withBuilder (c : FliCommand) (b : CommandOptionsBuilder) : FliCommand :=
  match c with
  | .mk n d _ s cb p ps pl e i => .mk n d b s cb p ps pl e i

/-- Replace the node's child map. -/
def FliCommand.withSubCommands (c : FliCommand) (s : List (String × FliCommand)) :
    FliCommand :=
  match c with
  | .mk n d b _ cb p ps pl e i => .mk n d b s cb p ps pl e i

/-- `add_option`: register an option in the normal registry. -/
def FliCommand.addOption (c : FliCommand)
    (name description shortFlag longFlag : String) (value : ValueTypes) : FliCommand :=
  c.withBuilder (c.optionBuilder.addOption name description shortFlag longFlag value)

/-- `add_option_with_callback`: register the option normally and also
record it in the preserved table bound to `cb`. -/
def FliCommand.addOptionWithCallback (c : FliCommand)
    (name description shortFlag longFlag : String) (value : ValueTypes) (cb : Nat) :
    FliCommand :=
  let c1 := c.addOption name description shortFlag longFlag value
  let preserved : PreservedOptionEntry :=
    { longFlag := longFlag, shortFlag := shortFlag, valueType := value, callback := cb }
  let idx := c1.preservedOptions.length
  let shortMap :=
    if preserved.shortFlag = "" then c1.preservedShortFlags
    else c1.preservedShortFlags.insert preserved.shortFlag idx
  let longMap :=
    if preserved.longFlag = "" then c1.preservedLongFlags
    else c1.preservedLongFlags.insert preserved.longFlag idx
  match c1 with
  | .mk n d b s cbk p _ _ e i =>
    .mk n d b s cbk (p ++ [preserved]) shortMap longMap e i

/-- `setup_help_flag`: install the `-h`/`--help` preserved option. -/
def FliCommand.setupHelpFlag (c : FliCommand) : FliCommand :=
  c.addOptionWithCallback "help" "Display help information" "-h" "--help"
    .None helpCallbackId

/-- `FliCommand::new`: a fresh node with the auto-generated help flag. -/
def FliCommand.new (name description : String) : FliCommand :=
  FliCommand.setupHelpFlag
    (.mk name description CommandOptionsBuilder.new [] none [] StrMap.empty
      StrMap.empty 0 [])

/-- `FliCommand::with_parser`: a fresh node seeded with a pre-configured
builder (used for subcommands that inherit options). -/
def FliCommand.withParserBuilder (name description : String)
    (builder : CommandOptionsBuilder) : FliCommand :=
  FliCommand.setupHelpFlag
    (.mk name description builder [] none [] StrMap.empty StrMap.empty 0 [])

/-- `set_expected_positional_args`. -/
def FliCommand.setExpectedPositionalArgs (c : FliCommand) (count : Nat) : FliCommand :=
  match c with
  | .mk n d b s cb p ps pl _ i => .mk n d b s cb p ps pl count i

/-- `set_callback`. -/
def FliCommand.setCallback (c : FliCommand) (cb : Nat) : FliCommand :=
  match c with
  | .mk n d b s _ p ps pl e i => .mk n d b s (some cb) p ps pl e i

/-- `get_sub_command`: lookup a child by name. -/
def FliCommand.getSubCommand (c : FliCommand) (name : String) : Option FliCommand :=
  match List.find? (fun p => p.1 == name) c.subCommands with
  | some p => some p.2
  | none => none

/-- Child names in insertion order (`get_sub_commands().keys()`). -/
def FliCommand.subCommandNames (c : FliCommand) : List String :=
  c.subCommands.map Prod.fst

/-- `add_sub_command`: insert the child keyed by its name, overwriting
any child of the same name. -/
def FliCommand.addSubCommand (c : FliCommand) (child : FliCommand) : FliCommand :=
  c.withSubCommands
    (c.subCommands.filter (fun p => p.1 ≠ child.name) ++ [(child.name, child)])

/-- `subcommand`: create a child seeded from the parent's inheritable
snapshot, with its own help flag, and insert it. -/
def FliCommand.subcommand (c : FliCommand) (name description : String) : FliCommand :=
  let inheritedBuilder := c.optionRegistry.inheritableOptionsBuilder
  let child := FliCommand.withParserBuilder name description inheritedBuilder
  c.addSubCommand child

/-- Replace the child bound to `name` (models mutation through the
`&mut` handle returned by `subcommand`/`get_sub_command_mut`). -/
def FliCommand.updateSubCommand (c : FliCommand) (name : String)
    (f : FliCommand → FliCommand) : FliCommand :=
  c.withSubCommands
    (c.subCommands.map (fun p => if p.1 = name then (p.1, f p.2) else p))

/-- `get_preserved_option`: exact lookup in both preserved maps, then the
dash-normalized variants `-x`, `--x`, `x`. -/
def FliCommand.getPreservedOption (c : FliCommand) (name : String) :
    Option PreservedOptionEntry :=
  match c.preservedShortFlags.find? name with
  | some idx => c.preservedOptions.get? idx
  | none =>
  match c.preservedLongFlags.find? name with
  | some idx => c.preservedOptions.get? idx
  | none =>
    let trimmed := String.mk (name.toList.dropWhile (fun ch => ch = '-'))
    let variants := ["-" ++ trimmed, "--" ++ trimmed, trimmed]
    variants.foldl
      (fun acc v =>
        match acc with
        | some r => some r
        | none =>
          match c.preservedShortFlags.find? v with
          | some idx => c.preservedOptions.get? idx
          | none =>
            match c.preservedLongFlags.find? v with
            | some idx => c.preservedOptions.get? idx
            | none => none)
      none

/-- `has_preserved_option`. -/
def FliCommand.hasPreservedOption (c : FliCommand) (name : String) : Bool :=
  (c.getPreservedOption name).isSome

/-- `has_option` on the node's registry. -/
def FliCommand.hasOption (c : FliCommand) (flag : String) : Bool :=
  c.optionRegistry.hasOption flag

/-- Update the node's registry value for `flag` (the
`update_option_value` call sites inside `prepare`). -/
def FliCommand.updateOptionValue (c : FliCommand) (flag : String)
    (value : ValueTypes) : Except FliError FliCommand :=
  match c.optionRegistry.updateOptionValue flag value with
  | .ok reg => .ok (c.withBuilder { optionRegistry := reg })
  | .error e => .error e

/-- `mark_inheritable` reached through the node's registry (the
`cmd.get_option_parser().mark_inheritable(flag)` usage pattern). -/
def FliCommand.markInheritable (c : FliCommand) (flag : String) :
    Except FliError FliCommand :=
  match c.optionRegistry.markInheritable flag with
  | .ok reg => .ok (c.withBuilder { optionRegistry := reg })
  | .error e => .error e

/-! ### Command chain and input parser (src/option_parser/input_parser.rs) -/

/-- Element of the parsed command chain. -/
inductive CommandChain where
  | SubCommand (name : String)
  | Option (flag : String) (value : ValueTypes)
  | Argument (token : String)
  | IsPreservedOption (flag : String)
  deriving Repr

/-- Whether a chain position holds a `SubCommand` entry. -/
def isSubCommandEntry : Option CommandChain → Bool
  | some (.SubCommand _) => true
  | _ => false

/-- Whether the state matches `Start | InCommand` (the state guard of the
unknown-command branch). -/
def ParseState.isStartOrInCommand : ParseState → Bool
  | .Start | .InCommand => true
  | _ => false

/-- The inner `while` of the `RequiredMultiple`/`OptionalMultiple` arm of
`prepare`: greedily consume tokens, re-typing each against the default at
the collected index, stopping at a recognized flag, at the literal `"--"`,
or once `maxCount` values are held.  Returns the collected values and the
unconsumed suffix. -/
def collectValues (cmd : FliCommand) (defaults : List Value) (maxCount cnt : Nat)
    (args : List String) : Except FliError (List Value × List String) :=
  match args with
  | [] => .ok ([], [])
  | a :: rest =>
    if cnt < maxCount then
      if cmd.hasOption a then .ok ([], a :: rest)
      else if a = "--" then .ok ([], a :: rest)
      else
        match (defaults.getD cnt (.Str "")).replaceWithExpectedValue a with
        | .error e => .error e
        | .ok v =>
          match collectValues cmd defaults maxCount (cnt + 1) rest with
          | .error e => .error e
          | .ok (vs, rest2) => .ok (v :: vs, rest2)
    else .ok ([], a :: rest)

/-- A successful collection consumes exactly `vs.length` tokens. -/
theorem collectValues_length (cmd : FliCommand) (defaults : List Value)
    (maxCount : Nat) :
    ∀ (args : List String) (cnt : Nat) (vs : List Value) (rest2 : List String),
      collectValues cmd defaults maxCount cnt args = .ok (vs, rest2) →
      vs.length + rest2.length = args.length := by
  intro args
  induction args with
  | nil =>
    intro cnt vs rest2 h
    simp only [collectValues] at h
    cases h
    simp
  | cons a rest ih =>
    intro cnt vs rest2 h
    simp only [collectValues] at h
    by_cases hcnt : cnt < maxCount
    · simp only [if_pos hcnt] at h
      by_cases hopt : cmd.hasOption a = true
      · simp only [hopt, if_true] at h
        cases h
        simp
      · simp only [hopt] at h
        by_cases hbrk : a = "--"
        · simp only [if_pos hbrk] at h
          simp only [Bool.false_eq_true, if_false] at h
          cases h
          simp
        · simp only [if_neg hbrk, Bool.false_eq_true, if_false] at h
          cases hre : (defaults.getD cnt (.Str "")).replaceWithExpectedValue a with
          | error e => rw [hre] at h; cases h
          | ok v =>
            rw [hre] at h
            cases hrec : collectValues cmd defaults maxCount (cnt + 1) rest with
            | error e => rw [hrec] at h; cases h
            | ok pr =>
              obtain ⟨vs2, r2⟩ := pr
              rw [hrec] at h
              have hlen := ih (cnt + 1) vs2 r2 hrec
              cases h
              simp only [List.length_cons]
              omega
    · simp only [if_neg hcnt] at h
      cases h
      simp

/-- Result of one `prepare` invocation: the final chain, the updated
command node of that invocation, and the parser's final `command`/`args`
fields (those of the innermost invocation). -/
structure PrepOut where
  chain : List CommandChain
  cmd : FliCommand
  finalCommand : String
  finalArgs : List String

mutual

/-- The token loop of `InputArgsParser::prepare`: `args` is the suffix of
the token vector from the cursor, `i` the absolute cursor, `chain` the
chain built so far; `invName`/`invArgs` are this invocation's parser
fields, stored in the result at end of input. -/
def prepareLoop (cmd : FliCommand) (state : ParseState) (args : List String)
    (chain : List CommandChain) (i : Nat) (invName : String)
    (invArgs : List String) : Except FliError PrepOut :=
  match args with
  | [] =>
    -- final validation: an open AcceptingValue is an error for required
    -- arities and an absent-value entry for optional arities
    match state with
    | .AcceptingValue optionName valueType =>
      match valueType with
      | .RequiredSingle _ | .RequiredMultiple _ _ =>
        .error (.MissingValue optionName)
      | .OptionalSingle _ =>
        match state.setNextMode .End with
        | .error e => .error e
        | .ok _ =>
          .ok ⟨chain ++ [.Option optionName (.OptionalSingle none)], cmd,
               invName, invArgs⟩
      | .OptionalMultiple _ count =>
        match state.setNextMode .End with
        | .error e => .error e
        | .ok _ =>
          .ok ⟨chain ++ [.Option optionName (.OptionalMultiple none count)], cmd,
               invName, invArgs⟩
      | .None =>
        match state.setNextMode .End with
        | .error e => .error e
        | .ok _ => .ok ⟨chain, cmd, invName, invArgs⟩
    | _ =>
      match state.setNextMode .End with
      | .error e => .error e
      | .ok _ => .ok ⟨chain, cmd, invName, invArgs⟩
  | a :: rest =>
    -- the break symbol "--"
    if a = "--" then
      match state with
      | .InOption | .AcceptingValue _ _ =>
        match state.setNextMode .Breaking with
        | .error e => .error e
        | .ok st2 => prepareLoop cmd st2 rest chain (i + 1) invName invArgs
      | _ => .error (.UnexpectedToken "--" i)
    else
      match state with
      -- in Breaking state the token becomes an argument
      | .Breaking =>
        match ParseState.Breaking.setNextMode .InArgument with
        | .error e => .error e
        | .ok st2 =>
          prepareLoop cmd st2 rest (chain ++ [.Argument a]) (i + 1) invName invArgs
      -- AcceptingValue consumption per the arity
      | .AcceptingValue optionName expectedType =>
        match expectedType with
        | .RequiredSingle d =>
          if cmd.hasOption a then .error (.MissingValue optionName)
          else
            match d.replaceWithExpectedValue a with
            | .error e => .error e
            | .ok v =>
              let chain2 := chain ++ [.Option optionName (.RequiredSingle v)]
              match cmd.updateOptionValue optionName (.RequiredSingle v) with
              | .error e => .error e
              | .ok cmd2 =>
                match state.setNextMode .InOption with
                | .error e => .error e
                | .ok st2 =>
                  prepareLoop cmd2 st2 rest chain2 (i + 1) invName invArgs
        | .OptionalSingle d =>
          if cmd.hasOption a then
            -- a recognized flag is not consumed as the value; the same
            -- token is re-processed as a fresh option (cursor unchanged)
            let chain2 := chain ++ [.Option optionName (.OptionalSingle none)]
            match state.setNextMode .InOption with
            | .error e => .error e
            | .ok st2 => processToken cmd st2 a rest chain2 i invName invArgs
          else
            match (d.getD (.Str "")).replaceWithExpectedValue a with
            | .error e => .error e
            | .ok v =>
              let chain2 := chain ++ [.Option optionName (.OptionalSingle (some v))]
              match cmd.updateOptionValue optionName (.OptionalSingle (some v)) with
              | .error e => .error e
              | .ok cmd2 =>
                match state.setNextMode .InOption with
                | .error e => .error e
                | .ok st2 =>
                  prepareLoop cmd2 st2 rest chain2 (i + 1) invName invArgs
        | .RequiredMultiple ds expectedCount =>
          match hcol : collectValues cmd ds (expectedCount.getD USIZE_MAX) 0 (a :: rest) with
          | .error e => .error e
          | .ok (vs, rest2) =>
            if hvs : vs.isEmpty then .error (.MissingValue optionName)
            else if (match expectedCount with
                     | some expected => vs.length != expected
                     | none => false) then
              .error (.MissingValue optionName)
            else
              let chain2 := chain ++ [.Option optionName (.RequiredMultiple vs expectedCount)]
              match cmd.updateOptionValue optionName (.RequiredMultiple vs expectedCount) with
              | .error e => .error e
              | .ok cmd2 =>
                match state.setNextMode .InOption with
                | .error e => .error e
                | .ok st2 =>
                  prepareLoop cmd2 st2 rest2 chain2 (i + vs.length) invName invArgs
        | .OptionalMultiple dsOpt expectedCount =>
          match hcol : collectValues cmd (dsOpt.getD []) (expectedCount.getD USIZE_MAX) 0 (a :: rest) with
          | .error e => .error e
          | .ok (vs, rest2) =>
            if hvs : vs.isEmpty then
              let optionValue := ValueTypes.OptionalMultiple none expectedCount
              let chain2 := chain ++ [.Option optionName optionValue]
              match cmd.updateOptionValue optionName optionValue with
              | .error e => .error e
              | .ok cmd2 =>
                match state.setNextMode .InOption with
                | .error e => .error e
                | .ok st2 =>
                  -- nothing consumed: the cursor stays, the stopping
                  -- token is re-processed in InOption state
                  processToken cmd2 st2 a rest chain2 i invName invArgs
            else
              let optionValue := ValueTypes.OptionalMultiple (some vs) expectedCount
              let chain2 := chain ++ [.Option optionName optionValue]
              match cmd.updateOptionValue optionName optionValue with
              | .error e => .error e
              | .ok cmd2 =>
                match state.setNextMode .InOption with
                | .error e => .error e
                | .ok st2 =>
                  prepareLoop cmd2 st2 rest2 chain2 (i + vs.length) invName invArgs
        | .None => .error (.Internal "AcceptingValue state with None value type")
      | _ => processToken cmd state a rest chain i invName invArgs
termination_by 4 * args.length + 1
decreasing_by
  all_goals simp_wf
  all_goals try omega
  all_goals
    first
    | (have hlen := collectValues_length _ _ _ _ _ _ _ hcol
       have hvs2 : vs.length ≠ 0 := by
         intro h0
         exact hvs (List.isEmpty_iff_length_eq_zero.mpr h0)
       simp at hlen
       omega)

/-- The tail of one loop iteration: preserved-option lookup, regular
option lookup, subcommand recursion, the unknown-command check, and the
positional-argument fallthrough. -/
def processToken (cmd : FliCommand) (state : ParseState) (a : String)
    (rest : List String) (chain : List CommandChain) (i : Nat) (invName : String)
    (invArgs : List String) : Except FliError PrepOut :=
  if (cmd.getPreservedOption a).isSome then
    match state.setNextMode .InOption with
    | .error e => .error e
    | .ok st2 =>
      prepareLoop cmd st2 rest (chain ++ [.IsPreservedOption a]) (i + 1)
        invName invArgs
  else if cmd.hasOption a then
    match cmd.optionRegistry.getOptionExpectedValueType a with
    | none => .error (.OptionNotFound a)
    | some expected =>
      match expected with
      | .None =>
        match state.setNextMode .InOption with
        | .error e => .error e
        | .ok st2 =>
          prepareLoop cmd st2 rest (chain ++ [.Option a .None]) (i + 1)
            invName invArgs
      | _ =>
        match state.setNextMode .InOption with
        | .error e => .error e
        | .ok st2 =>
          match st2.setNextMode (.AcceptingValue a expected) with
          | .error e => .error e
          | .ok st3 => prepareLoop cmd st3 rest chain (i + 1) invName invArgs
  else
    match cmd.getSubCommand a with
    | some sub =>
      -- delegate: reassign command and args, restart prepare on the child
      match prepareRun a sub rest (chain ++ [.SubCommand a]) with
      | .error e => .error e
      | .ok out =>
        .ok { out with cmd := cmd.updateSubCommand a (fun _ => out.cmd) }
    | none =>
      if cmd.expectedPositionalArgs = 0 &&
         (state.isStartOrInCommand || isSubCommandEntry chain.getLast?) then
        .error (.UnknownCommand a cmd.subCommandNames)
      else
        match state.setNextMode .InArgument with
        | .error e => .error e
        | .ok st2 =>
          prepareLoop cmd st2 rest (chain ++ [.Argument a]) (i + 1) invName invArgs
termination_by 4 * rest.length + 3
decreasing_by
  all_goals simp_wf
  all_goals omega

/-- One full `prepare` invocation on an unprepared parser: the command
name check, the `Start → InCommand` transition, then the token loop. -/
def prepareRun (cmdName : String) (cmd : FliCommand) (args : List String)
    (chain : List CommandChain) : Except FliError PrepOut :=
  if cmdName ≠ cmd.name then .error (.CommandMismatch cmd.name cmdName)
  else
    match ParseState.Start.setNextMode .InCommand with
    | .error e => .error e
    | .ok st => prepareLoop cmd st args chain 0 cmdName args
termination_by 4 * args.length + 2
decreasing_by
  all_goals simp_wf
  all_goals omega

end

/-- `InputArgsParser`: the raw token vector, the produced chain, and the
prepared flag. -/
structure InputArgsParser where
  command : String
  args : List String
  commandChain : List CommandChain
  isPrepared : Bool

/-- `InputArgsParser::new`: an unprepared parser with an empty chain. -/
def InputArgsParser.new (command : String) (args : List String) : InputArgsParser :=
  { command := command, args := args, commandChain := [], isPrepared := false }

/-- `InputArgsParser::from_chain`: a parser marked prepared around a
pre-built chain. -/
def InputArgsParser.fromChain (command : String) (chain : List CommandChain) :
    InputArgsParser :=
  { command := command, args := [], commandChain := chain, isPrepared := true }

/-- `with_remaining_chain`: a prepared parser holding the chain suffix
from `startIdx`. -/
def InputArgsParser.withRemainingChain (p : InputArgsParser) (startIdx : Nat) :
    InputArgsParser :=
  { command := p.command, args := [],
    commandChain :=
      if startIdx < p.commandChain.length then p.commandChain.drop startIdx else [],
    isPrepared := true }

/-- `InputArgsParser::prepare`: a no-op on an already-prepared parser;
otherwise run the parse and mark the parser prepared.  Returns the
updated parser and the updated command tree. -/
def InputArgsParser.prepare (p : InputArgsParser) (cmd : FliCommand) :
    Except FliError (InputArgsParser × FliCommand) :=
  if p.isPrepared then .ok (p, cmd)
  else
    match prepareRun p.command cmd p.args p.commandChain with
    | .error e => .error e
    | .ok out =>
      .ok ({ command := out.finalCommand, args := out.finalArgs,
             commandChain := out.chain, isPrepared := true }, out.cmd)

/-! ### Dispatch (src/command.rs, `FliCommand::run`) -/

/-- Result of the chain scan inside `run`: positional arguments before
the first `SubCommand`, that subcommand (name, remaining chain, index)
when present, and the last preserved-option flag seen. -/
structure ChainScan where
  arguments : List String
  nextSubCommand : Option (String × List CommandChain × Nat)
  preservedOption : Option String

/-- The scan loop of `run`: walk the chain, collecting arguments and the
last preserved flag, stopping at the first `SubCommand` entry. -/
def scanChainAux (items : List CommandChain) (idx : Nat) (acc : List String)
    (pres : Option String) (full : List CommandChain) : ChainScan :=
  match items with
  | [] => { arguments := acc, nextSubCommand := none, preservedOption := pres }
  | .SubCommand n :: _ =>
    { arguments := acc, nextSubCommand := some (n, full.drop (idx + 1), idx),
      preservedOption := pres }
  | .Argument a :: rest => scanChainAux rest (idx + 1) (acc ++ [a]) pres full
  | .Option _ _ :: rest => scanChainAux rest (idx + 1) acc pres full
  | .IsPreservedOption s :: rest => scanChainAux rest (idx + 1) acc (some s) full

/-- The remaining chain handed to a subcommand is a proper suffix of the
scanned chain. -/
theorem scanChainAux_sub (items : List CommandChain) (idx : Nat) (acc : List String)
    (pres : Option String) (full : List CommandChain) (n : String)
    (rem : List CommandChain) (j : Nat)
    (h : (scanChainAux items idx acc pres full).nextSubCommand = some (n, rem, j)) :
    rem = full.drop (j + 1) := by
  induction items generalizing idx acc pres with
  | nil => simp [scanChainAux] at h
  | cons c rest ih =>
    cases c with
    | SubCommand m =>
      simp [scanChainAux] at h
      obtain ⟨h1, h2, h3⟩ := h
      subst h3
      exact h2.symm
    | Option f v => exact ih (idx + 1) acc pres h
    | Argument a => exact ih (idx + 1) (acc ++ [a]) pres h
    | IsPreservedOption s => exact ih (idx + 1) acc (some s) h

/-- `FliCommand::run`: prepare, reject an empty chain, delegate to the
first subcommand recursively, otherwise invoke the preserved callback if
one was flagged, else the main callback.  Returns the identifiers of the
invoked callbacks. -/
def FliCommand.run (cmd : FliCommand) (p : InputArgsParser) :
    Except FliError (List Nat) :=
  match hp : p.prepare cmd with
  | .error e => .error e
  | .ok (p2, cmd2) =>
    let chain := p2.commandChain
    if hc : chain.isEmpty then
      .error (.InvalidUsage "No command or arguments provided")
    else
      match hscan : (scanChainAux chain 0 [] none chain).nextSubCommand with
      | some (subName, remaining, _idx) =>
        match cmd2.getSubCommand subName with
        | some sub =>
          FliCommand.run sub
            { command := p2.command, args := [], commandChain := remaining,
              isPrepared := true }
        | none => .error (.UnknownCommand subName cmd2.subCommandNames)
      | none =>
        let scan := scanChainAux chain 0 [] none chain
        let mainCb := cmd2.callback
        let chosen :=
          match scan.preservedOption with
          | some s =>
            match cmd2.getPreservedOption s with
            | some pres => some pres.callback
            | none => mainCb
          | none => mainCb
        match chosen with
        | some c => .ok [c]
        | none => .ok []
termination_by ((if p.isPrepared then 0 else 1), p.commandChain.length)
decreasing_by
  simp_wf
  by_cases hprep : p.isPrepared = true
  · simp only [hprep, if_true]
    apply Prod.Lex.right
    have hp2 : p2 = p := by
      simp only [InputArgsParser.prepare, hprep, if_true, Except.ok.injEq,
        Prod.mk.injEq] at hp
      exact hp.1.symm
    rw [← hp2]
    have hrem := scanChainAux_sub _ _ _ _ _ _ _ _ hscan
    have hchain : chain = p2.commandChain := rfl
    rw [hchain] at hc hrem
    rw [hrem]
    have hlen : 0 < p2.commandChain.length := by
      cases hch : p2.commandChain with
      | nil => rw [hch] at hc; simp at hc
      | cons x xs => simp
    simp only [List.length_drop]
    omega
  · have hone : (if p.isPrepared = true then 0 else 1) = 1 := if_neg hprep
    rw [hone]
    exact Prod.Lex.left _ _ (by omega)

attribute [simp] USIZE_MAX I64_BOUND digitVal parseDigits parseI64 parseBoolToken
  Value.replaceWithExpectedValue ValueTypes.expectsValue ValueTypes.asStr
  ParseState.stateName ParseState.canGoToNext ParseState.setNextMode
  ParseState.isStartOrInCommand isSubCommandEntry
  StrMap.empty StrMap.insert StrMap.find? StrMap.containsKey
  CommandOptions.new CommandOptions.getOptionPosition CommandOptions.markInheritable
  CommandOptions.markInheritableMany CommandOptions.updateOptionValue
  CommandOptions.addOption CommandOptions.getOptionByShortFlag
  CommandOptions.getOptionByLongFlag CommandOptions.hasOption
  CommandOptions.getOptionExpectedValueType CommandOptions.inheritableOptionsBuilder
  CommandOptionsBuilder.new CommandOptionsBuilder.addOption CommandOptionsBuilder.build
  helpCallbackId FliCommand.name FliCommand.description FliCommand.optionBuilder
  FliCommand.subCommands FliCommand.callback FliCommand.preservedOptions
  FliCommand.preservedShortFlags FliCommand.preservedLongFlags
  FliCommand.expectedPositionalArgs FliCommand.optionRegistry FliCommand.withBuilder
  FliCommand.withSubCommands FliCommand.addOption FliCommand.addOptionWithCallback
  FliCommand.setupHelpFlag FliCommand.new FliCommand.withParserBuilder
  FliCommand.setExpectedPositionalArgs FliCommand.setCallback FliCommand.getSubCommand
  FliCommand.subCommandNames FliCommand.addSubCommand FliCommand.subcommand
  FliCommand.updateSubCommand FliCommand.getPreservedOption
  FliCommand.hasPreservedOption FliCommand.hasOption FliCommand.updateOptionValue
  InputArgsParser.new InputArgsParser.fromChain InputArgsParser.withRemainingChain

/-! ### Step lemmas for the token loop

Helper lemmas describing one step of `prepareLoop`/`processToken`;
they are the building blocks of the claim theorems below. -/

/-- In a non-Breaking, non-AcceptingValue state a token other than
`"--"` is dispatched to the tail of the iteration. -/
theorem prepareLoop_dispatch (cmd : FliCommand) (st : ParseState) (a : String)
    (rest : List String) (chain : List CommandChain) (i : Nat) (n : String)
    (v : List String) (hbrk : a ≠ "--")
    (hst : st = .Start ∨ st = .InCommand ∨ st = .InOption ∨ st = .InArgument ∨
      st = .End) :
    prepareLoop cmd st (a :: rest) chain i n v =
      processToken cmd st a rest chain i n v := by
  rcases hst with h | h | h | h | h <;> subst h <;>
    simp only [prepareLoop, hbrk, if_false]

/-- The break token from a state that may enter Breaking
(`InOption`/`AcceptingValue`) moves the parser to Breaking. -/
theorem prepareLoop_break_legal (cmd : FliCommand) (st : ParseState)
    (rest : List String) (chain : List CommandChain) (i : Nat) (n : String)
    (v : List String) (hst : st.canGoToNext .Breaking = true) :
    prepareLoop cmd st ("--" :: rest) chain i n v =
      prepareLoop cmd .Breaking rest chain (i + 1) n v := by
  cases st
  case AcceptingValue nm vt =>
    cases vt <;> simp_all [prepareLoop, ParseState.canGoToNext, ParseState.setNextMode]
  all_goals simp_all [prepareLoop, ParseState.canGoToNext, ParseState.setNextMode]

/-- The break token in any other state is an `UnexpectedToken` error. -/
theorem prepareLoop_break_illegal (cmd : FliCommand) (st : ParseState)
    (rest : List String) (chain : List CommandChain) (i : Nat) (n : String)
    (v : List String) (hst : st.canGoToNext .Breaking = false) :
    prepareLoop cmd st ("--" :: rest) chain i n v =
      .error (.UnexpectedToken "--" i) := by
  cases st <;> simp_all [prepareLoop, ParseState.canGoToNext]

/-- In Breaking state the next token becomes an Argument entry and the
state moves to InArgument religiously of its spelling (except `"--"`). -/
theorem prepareLoop_breaking_cons (cmd : FliCommand) (b : String)
    (rest : List String) (chain : List CommandChain) (i : Nat) (n : String)
    (v : List String) (hbrk : b ≠ "--") :
    prepareLoop cmd .Breaking (b :: rest) chain i n v =
      prepareLoop cmd .InArgument rest (chain ++ [.Argument b]) (i + 1) n v := by
  simp only [prepareLoop, hbrk, if_false]
  simp [ParseState.setNextMode]

/-- End of input in Breaking state succeeds with the chain as built. -/
theorem prepareLoop_breaking_nil (cmd : FliCommand) (chain : List CommandChain)
    (i : Nat) (n : String) (v : List String) :
    prepareLoop cmd .Breaking [] chain i n v = .ok ⟨chain, cmd, n, v⟩ := by
  simp [prepareLoop, ParseState.setNextMode]

/-- End of input in InCommand, InOption or InArgument state succeeds. -/
theorem prepareLoop_plain_nil (cmd : FliCommand) (st : ParseState)
    (chain : List CommandChain) (i : Nat) (n : String) (v : List String)
    (hst : st = .InCommand ∨ st = .InOption ∨ st = .InArgument) :
    prepareLoop cmd st [] chain i n v = .ok ⟨chain, cmd, n, v⟩ := by
  rcases hst with h | h | h <;> subst h <;>
    simp [prepareLoop, ParseState.setNextMode]

/-- End of input while a required arity is accepting is `MissingValue`. -/
theorem prepareLoop_nil_required (cmd : FliCommand) (nm : String)
    (vt : ValueTypes) (chain : List CommandChain) (i : Nat) (n : String)
    (v : List String)
    (hvt : (∃ d, vt = .RequiredSingle d) ∨ ∃ ds c, vt = .RequiredMultiple ds c) :
    prepareLoop cmd (.AcceptingValue nm vt) [] chain i n v =
      .error (.MissingValue nm) := by
  rcases hvt with ⟨d, h⟩ | ⟨ds, c, h⟩ <;> subst h <;> simp [prepareLoop]

/-- End of input while an optional arity is accepting appends an
absent-value Option entry. -/
theorem prepareLoop_nil_optional (cmd : FliCommand) (nm : String)
    (chain : List CommandChain) (i : Nat) (n : String) (v : List String) :
    (∀ d, prepareLoop cmd (.AcceptingValue nm (.OptionalSingle d)) [] chain i n v =
      .ok ⟨chain ++ [.Option nm (.OptionalSingle none)], cmd, n, v⟩) ∧
    (∀ ds c, prepareLoop cmd (.AcceptingValue nm (.OptionalMultiple ds c)) [] chain i n v =
      .ok ⟨chain ++ [.Option nm (.OptionalMultiple none c)], cmd, n, v⟩) := by
  constructor <;> intro _ <;>
    simp [prepareLoop, ParseState.setNextMode, ParseState.canGoToNext]

/-- A preserved-option match appends `IsPreservedOption` and advances. -/
theorem processToken_preserved (cmd : FliCommand) (st : ParseState) (a : String)
    (rest : List String) (chain : List CommandChain) (i : Nat) (n : String)
    (v : List String) (hpres : (cmd.getPreservedOption a).isSome = true)
    (hst : st.canGoToNext .InOption = true) :
    processToken cmd st a rest chain i n v =
      prepareLoop cmd .InOption rest (chain ++ [.IsPreservedOption a]) (i + 1) n v := by
  simp only [processToken, hpres, if_true, ParseState.setNextMode, hst]

/-- With no preserved match, a registered flag of `None` arity appends
an Option entry and stays in option context. -/
theorem processToken_option_flag (cmd : FliCommand) (st : ParseState) (a : String)
    (rest : List String) (chain : List CommandChain) (i : Nat) (n : String)
    (v : List String) (hpres : cmd.getPreservedOption a = none)
    (hopt : cmd.hasOption a = true)
    (hvt : cmd.optionRegistry.getOptionExpectedValueType a = some .None)
    (hst : st.canGoToNext .InOption = true) :
    processToken cmd st a rest chain i n v =
      prepareLoop cmd .InOption rest (chain ++ [.Option a .None]) (i + 1) n v := by
  simp only [processToken, hpres, Option.isSome_none, Bool.false_eq_true, if_false,
    hopt, if_true, hvt, ParseState.setNextMode, hst]

/-- With no preserved match, a registered flag of a value arity moves
the parser to `AcceptingValue` without appending anything. -/
theorem processToken_option_value (cmd : FliCommand) (st : ParseState) (a : String)
    (rest : List String) (chain : List CommandChain) (i : Nat) (n : String)
    (v : List String) (vt : ValueTypes) (hpres : cmd.getPreservedOption a = none)
    (hopt : cmd.hasOption a = true)
    (hvt : cmd.optionRegistry.getOptionExpectedValueType a = some vt)
    (hvtne : vt ≠ .None) (hst : st.canGoToNext .InOption = true) :
    processToken cmd st a rest chain i n v =
      prepareLoop cmd (.AcceptingValue a vt) rest chain (i + 1) n v := by
  simp only [processToken, hpres, Option.isSome_none, Bool.false_eq_true, if_false,
    hopt, if_true, hvt]
  cases vt
  case None => exact absurd rfl hvtne
  all_goals
    simp only [ParseState.setNextMode, hst, if_true]
    simp [ParseState.canGoToNext]

/-- With no preserved or option match, a child-command name delegates
recursively and re-installs the updated child into the parent map. -/
theorem processToken_subcommand (cmd sub : FliCommand) (st : ParseState)
    (a : String) (rest : List String) (chain : List CommandChain) (i : Nat)
    (n : String) (v : List String) (hpres : cmd.getPreservedOption a = none)
    (hopt : cmd.hasOption a = false) (hsub : cmd.getSubCommand a = some sub) :
    processToken cmd st a rest chain i n v =
      (prepareRun a sub rest (chain ++ [.SubCommand a])).map
        (fun out => { out with cmd := cmd.updateSubCommand a (fun _ => out.cmd) }) := by
  simp only [processToken, hpres, Option.isSome_none, Bool.false_eq_true, if_false,
    hopt, hsub]
  cases prepareRun a sub rest (chain ++ [.SubCommand a]) <;> rfl

/-- The unknown-command branch: nothing matched, zero expected
positionals, and a `Start`/`InCommand` state or a last `SubCommand`
entry. -/
theorem processToken_unknown (cmd : FliCommand) (st : ParseState) (a : String)
    (rest : List String) (chain : List CommandChain) (i : Nat) (n : String)
    (v : List String) (hpres : cmd.getPreservedOption a = none)
    (hopt : cmd.hasOption a = false) (hsub : cmd.getSubCommand a = none)
    (hexp : cmd.expectedPositionalArgs = 0)
    (hctx : st.isStartOrInCommand = true ∨ isSubCommandEntry chain.getLast? = true) :
    processToken cmd st a rest chain i n v =
      .error (.UnknownCommand a cmd.subCommandNames) := by
  simp only [processToken, hpres, Option.isSome_none, Bool.false_eq_true, if_false,
    hopt, hsub]
  rw [if_pos]
  simp only [Bool.and_eq_true, Bool.or_eq_true, decide_eq_true_eq]
  exact ⟨hexp, hctx⟩

/-- The positional-argument fallthrough, in a state from which
`InArgument` is reachable. -/
theorem processToken_argument (cmd : FliCommand) (st : ParseState) (a : String)
    (rest : List String) (chain : List CommandChain) (i : Nat) (n : String)
    (v : List String) (hpres : cmd.getPreservedOption a = none)
    (hopt : cmd.hasOption a = false) (hsub : cmd.getSubCommand a = none)
    (hcond : ¬(cmd.expectedPositionalArgs = 0 ∧
      (st.isStartOrInCommand = true ∨ isSubCommandEntry chain.getLast? = true)))
    (hst : st.canGoToNext .InArgument = true) :
    processToken cmd st a rest chain i n v =
      prepareLoop cmd .InArgument rest (chain ++ [.Argument a]) (i + 1) n v := by
  simp only [processToken, hpres, Option.isSome_none, Bool.false_eq_true, if_false,
    hopt, hsub]
  rw [if_neg]
  · simp only [ParseState.setNextMode, hst, if_true]
  · simp only [Bool.and_eq_true, Bool.or_eq_true, decide_eq_true_eq]
    intro hcontra
    exact hcond ⟨by simpa using hcontra.1, hcontra.2⟩

/-- The positional-argument fallthrough from a state that cannot enter
`InArgument` (such as `InOption`) fails with a transition error. -/
theorem processToken_argument_illegal (cmd : FliCommand) (st : ParseState)
    (a : String) (rest : List String) (chain : List CommandChain) (i : Nat)
    (n : String) (v : List String) (hpres : cmd.getPreservedOption a = none)
    (hopt : cmd.hasOption a = false) (hsub : cmd.getSubCommand a = none)
    (hcond : ¬(cmd.expectedPositionalArgs = 0 ∧
      (st.isStartOrInCommand = true ∨ isSubCommandEntry chain.getLast? = true)))
    (hst : st.canGoToNext .InArgument = false) :
    processToken cmd st a rest chain i n v =
      .error (.InvalidStateTransition st.stateName "InArgument") := by
  simp only [processToken, hpres, Option.isSome_none, Bool.false_eq_true, if_false,
    hopt, hsub]
  rw [if_neg]
  · simp only [ParseState.setNextMode, hst, Bool.false_eq_true, if_false,
      ParseState.stateName]
  · simp only [Bool.and_eq_true, Bool.or_eq_true, decide_eq_true_eq]
    intro hcontra
    exact hcond ⟨by simpa using hcontra.1, hcontra.2⟩

/-- `AcceptingValue` with `RequiredSingle`: a recognized flag as the next
token is `MissingValue`. -/
theorem prepareLoop_reqSingle_flag (cmd : FliCommand) (nm : String) (d : Value)
    (a : String) (rest : List String) (chain : List CommandChain) (i : Nat)
    (n : String) (v : List String) (hbrk : a ≠ "--")
    (hopt : cmd.hasOption a = true) :
    prepareLoop cmd (.AcceptingValue nm (.RequiredSingle d)) (a :: rest) chain i n v =
      .error (.MissingValue nm) := by
  simp only [prepareLoop, hbrk, if_false, hopt, if_true]

/-- `AcceptingValue` with `RequiredSingle`: a non-flag token is re-typed;
on success it is appended as an Option entry, committed into the
registry, and the parser returns to option context. -/
theorem prepareLoop_reqSingle_value (cmd cmd2 : FliCommand) (nm : String)
    (d val : Value) (a : String) (rest : List String) (chain : List CommandChain)
    (i : Nat) (n : String) (v : List String) (hbrk : a ≠ "--")
    (hopt : cmd.hasOption a = false)
    (hre : d.replaceWithExpectedValue a = .ok val)
    (hupd : cmd.updateOptionValue nm (.RequiredSingle val) = .ok cmd2) :
    prepareLoop cmd (.AcceptingValue nm (.RequiredSingle d)) (a :: rest) chain i n v =
      prepareLoop cmd2 .InOption rest
        (chain ++ [.Option nm (.RequiredSingle val)]) (i + 1) n v := by
  simp only [prepareLoop, hbrk, if_false, hopt, Bool.false_eq_true, hre, hupd,
    ParseState.setNextMode]
  simp [ParseState.canGoToNext]

/-- `AcceptingValue` with `RequiredSingle`: a failing re-type propagates
the typed parse error. -/
theorem prepareLoop_reqSingle_badValue (cmd : FliCommand) (nm : String)
    (d : Value) (e : FliError) (a : String) (rest : List String)
    (chain : List CommandChain) (i : Nat) (n : String) (v : List String)
    (hbrk : a ≠ "--") (hopt : cmd.hasOption a = false)
    (hre : d.replaceWithExpectedValue a = .error e) :
    prepareLoop cmd (.AcceptingValue nm (.RequiredSingle d)) (a :: rest) chain i n v =
      .error e := by
  simp only [prepareLoop, hbrk, if_false, hopt, Bool.false_eq_true, hre]

/-- `AcceptingValue` with `OptionalSingle`: a recognized flag is not
consumed; an absent-value entry is appended and the flag token is
re-processed as an option. -/
theorem prepareLoop_optSingle_flag (cmd : FliCommand) (nm : String)
    (d : Option Value) (a : String) (rest : List String)
    (chain : List CommandChain) (i : Nat) (n : String) (v : List String)
    (hbrk : a ≠ "--") (hopt : cmd.hasOption a = true) :
    prepareLoop cmd (.AcceptingValue nm (.OptionalSingle d)) (a :: rest) chain i n v =
      processToken cmd .InOption a rest
        (chain ++ [.Option nm (.OptionalSingle none)]) i n v := by
  simp only [prepareLoop, hbrk, if_false, hopt, if_true, ParseState.setNextMode]
  simp [ParseState.canGoToNext]

/-- `AcceptingValue` with `RequiredMultiple`: reduce one loop step to the
outcome of the greedy collection. -/
theorem prepareLoop_reqMultiple_eq (cmd : FliCommand) (nm : String)
    (ds : List Value) (cnt : Option Nat) (a : String) (rest : List String)
    (chain : List CommandChain) (i : Nat) (n : String) (v : List String)
    (vs : List Value) (rest2 : List String) (hbrk : a ≠ "--")
    (hcol : collectValues cmd ds (cnt.getD USIZE_MAX) 0 (a :: rest) = .ok (vs, rest2)) :
    prepareLoop cmd (.AcceptingValue nm (.RequiredMultiple ds cnt))
        (a :: rest) chain i n v =
      (if vs.isEmpty then .error (.MissingValue nm)
       else if (match cnt with
                | some expected => vs.length != expected
                | none => false) then .error (.MissingValue nm)
       else
         match cmd.updateOptionValue nm (.RequiredMultiple vs cnt) with
         | .error e => .error e
         | .ok cmd2 =>
           prepareLoop cmd2 .InOption rest2
             (chain ++ [.Option nm (.RequiredMultiple vs cnt)])
             (i + vs.length) n v) := by
  simp only [prepareLoop, hbrk, if_false]
  split
  · next e heq => rw [hcol] at heq; cases heq
  · next vs2 rest3 heq =>
    rw [hcol] at heq
    cases heq
    simp only [ParseState.setNextMode]
    simp [ParseState.canGoToNext]

/-- `AcceptingValue` with `RequiredMultiple`: a failing re-type inside
the greedy collection propagates. -/
theorem prepareLoop_reqMultiple_err (cmd : FliCommand) (nm : String)
    (ds : List Value) (cnt : Option Nat) (a : String) (rest : List String)
    (chain : List CommandChain) (i : Nat) (n : String) (v : List String)
    (e : FliError) (hbrk : a ≠ "--")
    (hcol : collectValues cmd ds (cnt.getD USIZE_MAX) 0 (a :: rest) = .error e) :
    prepareLoop cmd (.AcceptingValue nm (.RequiredMultiple ds cnt))
        (a :: rest) chain i n v = .error e := by
  simp only [prepareLoop, hbrk, if_false]
  split
  · next e2 heq => rw [hcol] at heq; cases heq; rfl
  · next vs2 rest3 heq => rw [hcol] at heq; cases heq

/-- `AcceptingValue` with `OptionalMultiple`: reduce one loop step to the
outcome of the greedy collection. -/
theorem prepareLoop_optMultiple_eq (cmd : FliCommand) (nm : String)
    (ds : Option (List Value)) (cnt : Option Nat) (a : String)
    (rest : List String) (chain : List CommandChain) (i : Nat) (n : String)
    (v : List String) (vs : List Value) (rest2 : List String) (hbrk : a ≠ "--")
    (hcol : collectValues cmd (ds.getD []) (cnt.getD USIZE_MAX) 0 (a :: rest) =
      .ok (vs, rest2)) :
    prepareLoop cmd (.AcceptingValue nm (.OptionalMultiple ds cnt))
        (a :: rest) chain i n v =
      (if vs.isEmpty then
         match cmd.updateOptionValue nm (.OptionalMultiple none cnt) with
         | .error e => .error e
         | .ok cmd2 =>
           processToken cmd2 .InOption a rest
             (chain ++ [.Option nm (.OptionalMultiple none cnt)]) i n v
       else
         match cmd.updateOptionValue nm (.OptionalMultiple (some vs) cnt) with
         | .error e => .error e
         | .ok cmd2 =>
           prepareLoop cmd2 .InOption rest2
             (chain ++ [.Option nm (.OptionalMultiple (some vs) cnt)])
             (i + vs.length) n v) := by
  simp only [prepareLoop, hbrk, if_false]
  split
  · next e heq => rw [hcol] at heq; cases heq
  · next vs2 rest3 heq =>
    rw [hcol] at heq
    cases heq
    simp only [ParseState.setNextMode]
    simp [ParseState.canGoToNext]

/-! ### Registry lemmas -/

/-- Filtering out one key leaves lookups of other keys unchanged. -/
theorem find?_filter_ne {A : Type} (m : List (String × A)) (k k2 : String)
    (h : k2 ≠ k) :
    List.find? (fun p => p.1 == k2) (m.filter (fun p => p.1 ≠ k)) =
      List.find? (fun p => p.1 == k2) m := by
  induction m with
  | nil => rfl
  | cons x xs ih =>
    rw [List.filter_cons]
    by_cases hx : x.1 = k
    · rw [if_neg (by simp [hx]), ih, List.find?_cons]
      have hpred : (x.1 == k2) = false := by
        rw [hx]
        exact beq_eq_false_iff_ne.mpr (Ne.symm h)
      rw [hpred]
    · rw [if_pos (by simp [hx]), List.find?_cons, List.find?_cons]
      cases hpx : (x.1 == k2) with
      | true => rfl
      | false => exact ih

/-- Updating entries of one key leaves lookups of other keys
unchanged. -/
theorem find?_update_ne {A : Type} (m : List (String × A)) (k k2 : String)
    (f : A → A) (h : k2 ≠ k) :
    List.find? (fun p => p.1 == k2)
        (m.map (fun p => if p.1 = k then (p.1, f p.2) else p)) =
      List.find? (fun p => p.1 == k2) m := by
  induction m with
  | nil => rfl
  | cons x xs ih =>
    rw [List.map_cons]
    by_cases hx : x.1 = k
    · rw [if_pos hx, List.find?_cons, List.find?_cons]
      have hpred : (x.1 == k2) = false := by
        rw [hx]
        exact beq_eq_false_iff_ne.mpr (Ne.symm h)
      rw [hpred]
      simp only [hpred]
      exact ih
    · rw [if_neg hx, List.find?_cons, List.find?_cons]
      cases hpx : (x.1 == k2) with
      | true => rfl
      | false => exact ih

/-- Lookup after insert-overwrite. -/
theorem StrMap.find?_insert (m : StrMap) (k k2 : String) (val : Nat) :
    (m.insert k val).find? k2 = if k2 = k then some val else m.find? k2 := by
  show StrMap.find? ((k, val) :: m.filter (fun p => p.1 ≠ k)) k2 = _
  by_cases h : k2 = k
  · subst h
    simp only [StrMap.find?, List.find?_cons, beq_self_eq_true, if_true]
  · have hpred : (k == k2) = false := beq_eq_false_iff_ne.mpr (Ne.symm h)
    simp only [StrMap.find?, List.find?_cons, hpred]
    rw [find?_filter_ne m k k2 h, if_neg h]

/-- Key membership after insert-overwrite. -/
theorem StrMap.containsKey_insert (m : StrMap) (k k2 : String) (val : Nat) :
    (m.insert k val).containsKey k2 = true ↔ k2 = k ∨ m.containsKey k2 = true := by
  simp only [StrMap.containsKey, StrMap.find?_insert]
  by_cases h : k2 = k <;> simp [h]

/-- `has_option` after `add_option`: one of the new flags or an old flag. -/
theorem CommandOptions.hasOption_addOption (p : CommandOptions) (o : SingleOption)
    (f : String) :
    (p.addOption o).hasOption f = true ↔
      f = o.shortFlag ∨ f = o.longFlag ∨ p.hasOption f = true := by
  simp only [CommandOptions.addOption, CommandOptions.hasOption, Bool.or_eq_true,
    StrMap.containsKey_insert]
  tauto

/-- A successful `update_option_value` commits the new value: the
subsequent `get_option_expected_value_type` lookup of the same flag
returns it. -/
theorem CommandOptions.updateOptionValue_lookup (p p2 : CommandOptions)
    (flag : String) (val : ValueTypes)
    (h : p.updateOptionValue flag val = .ok p2) :
    p2.getOptionExpectedValueType flag = some val := by
  unfold CommandOptions.updateOptionValue at h
  split at h
  case h_2 hpos => cases h
  case h_1 idx hpos =>
    split at h
    case h_2 hget => cases h
    case h_1 opt hget =>
      cases h
      have hlen : idx < p.options.length := by
        have := List.get?_eq_some.mp hget
        exact this.choose
      have hset : (p.options.set idx { opt with value := val })[idx]? =
          some { opt with value := val } := List.getElem?_set_eq_of_lt _ hlen
      unfold CommandOptions.getOptionPosition at hpos
      unfold CommandOptions.getOptionExpectedValueType
        CommandOptions.getOptionByShortFlag CommandOptions.getOptionByLongFlag
      cases hshort : StrMap.find? p.shortOptionMap flag with
      | some j =>
        rw [hshort] at hpos
        cases hpos
        simp [hshort, hset]
      | none =>
        rw [hshort] at hpos
        cases hlong : StrMap.find? p.longOptionMap flag with
        | some j =>
          rw [hlong] at hpos
          cases hpos
          simp [hshort, hlong, hset]
        | none => rw [hlong] at hpos; cases hpos

/-- Commit at the command level. -/
theorem FliCommand.updateOptionValue_lookup_cmd (c c2 : FliCommand) (flag : String)
    (val : ValueTypes) (h : c.updateOptionValue flag val = .ok c2) :
    c2.optionRegistry.getOptionExpectedValueType flag = some val := by
  unfold FliCommand.updateOptionValue at h
  cases hreg : c.optionRegistry.updateOptionValue flag val with
  | error e => rw [hreg] at h; cases h
  | ok reg =>
    rw [hreg] at h
    cases h
    have := CommandOptions.updateOptionValue_lookup _ _ _ _ hreg
    cases c
    simpa [FliCommand.optionRegistry, FliCommand.withBuilder,
      CommandOptionsBuilder.build, FliCommand.optionBuilder] using this

/-! ### Inheritance lemmas -/

/-- Flags present in a builder survive the inheritable-clone fold. -/
theorem inheritFold_hasOption_mono (opts : List SingleOption) (l : List Nat)
    (b : CommandOptionsBuilder) (f : String)
    (hb : b.build.hasOption f = true) :
    ((l.foldl (fun b2 idx =>
        match opts.get? idx with
        | some opt =>
          b2.addOption opt.name opt.description opt.shortFlag opt.longFlag opt.value
        | none => b2) b).build).hasOption f = true := by
  induction l generalizing b with
  | nil => exact hb
  | cons j rest ih =>
    simp only [List.foldl_cons]
    apply ih
    cases hj : opts.get? j with
    | none => simpa [hj] using hb
    | some o =>
      simp only [hj]
      have := (CommandOptions.hasOption_addOption b.build
        { name := o.name, description := o.description, shortFlag := o.shortFlag,
          longFlag := o.longFlag, value := o.value } f).mpr (Or.inr (Or.inr hb))
      simpa [CommandOptionsBuilder.addOption, CommandOptionsBuilder.build] using this

/-- Every option whose index is in the inheritable list contributes both
of its flags to the folded builder. -/
theorem inheritFold_hasOption_mem (opts : List SingleOption) (l : List Nat)
    (b : CommandOptionsBuilder) (idx : Nat) (opt : SingleOption)
    (hmem : idx ∈ l) (hget : opts.get? idx = some opt) :
    ((l.foldl (fun b2 idx2 =>
        match opts.get? idx2 with
        | some o =>
          b2.addOption o.name o.description o.shortFlag o.longFlag o.value
        | none => b2) b).build).hasOption opt.shortFlag = true ∧
    ((l.foldl (fun b2 idx2 =>
        match opts.get? idx2 with
        | some o =>
          b2.addOption o.name o.description o.shortFlag o.longFlag o.value
        | none => b2) b).build).hasOption opt.longFlag = true := by
  induction l generalizing b with
  | nil => cases hmem
  | cons j rest ih =>
    simp only [List.foldl_cons]
    rcases List.mem_cons.mp hmem with hj | hmem2
    · subst hj
      have hshort : ((match opts.get? idx with
          | some o =>
            b.addOption o.name o.description o.shortFlag o.longFlag o.value
          | none => b).build).hasOption opt.shortFlag = true := by
        rw [hget]
        have h2 := CommandOptions.hasOption_addOption b.build opt opt.shortFlag
        simpa [CommandOptionsBuilder.addOption, CommandOptionsBuilder.build]
          using h2.mpr (Or.inl rfl)
      have hlong : ((match opts.get? idx with
          | some o =>
            b.addOption o.name o.description o.shortFlag o.longFlag o.value
          | none => b).build).hasOption opt.longFlag = true := by
        rw [hget]
        have h2 := CommandOptions.hasOption_addOption b.build opt opt.longFlag
        simpa [CommandOptionsBuilder.addOption, CommandOptionsBuilder.build]
          using h2.mpr (Or.inr (Or.inl rfl))
      exact ⟨inheritFold_hasOption_mono opts rest _ _ hshort,
             inheritFold_hasOption_mono opts rest _ _ hlong⟩
    · exact ih _ hmem2

/-- After `add_sub_command`, looking up the child's name yields the
child. -/
theorem getSubCommand_addSubCommand_self (c child : FliCommand) :
    (c.addSubCommand child).getSubCommand child.name = some child := by
  cases c
  rename_i nm ds b subs cb po ps pl e io
  simp only [FliCommand.addSubCommand, FliCommand.getSubCommand,
    FliCommand.withSubCommands, FliCommand.subCommands]
  rw [List.find?_append]
  have hnone : List.find? (fun p => p.1 == child.name)
      (List.filter (fun p : String × FliCommand =>
        decide (p.1 ≠ child.name)) subs) = none := by
    rw [List.find?_eq_none]
    intro x hx
    have hne := (List.mem_filter.mp hx).2
    simpa using hne
  rw [hnone]
  simp [List.find?_cons]

/-- After `add_sub_command`, the lookup of any other name is
unchanged. -/
theorem getSubCommand_addSubCommand_other (c child : FliCommand) (nm : String)
    (h : nm ≠ child.name) :
    (c.addSubCommand child).getSubCommand nm = c.getSubCommand nm := by
  cases c
  rename_i nm0 ds0 b0 subs0 cb0 po0 ps0 pl0 e0 io0
  simp only [FliCommand.addSubCommand, FliCommand.getSubCommand,
    FliCommand.withSubCommands, FliCommand.subCommands]
  rw [List.find?_append, find?_filter_ne _ child.name nm h]
  cases hfind : List.find? (fun p : String × FliCommand => p.1 == nm) subs0 with
  | some x => rfl
  | none =>
    have hpred : (child.name == nm) = false := beq_eq_false_iff_ne.mpr (Ne.symm h)
    simp only [Option.or, List.find?_cons]
    rw [hpred]
    rfl

/-- `updateSubCommand` touches neither other children nor the parent's
own registry builder. -/
theorem updateSubCommand_frame (c : FliCommand) (nm nm2 : String)
    (f : FliCommand → FliCommand) (h : nm2 ≠ nm) :
    (c.updateSubCommand nm f).getSubCommand nm2 = c.getSubCommand nm2 ∧
    (c.updateSubCommand nm f).optionBuilder = c.optionBuilder ∧
    (c.updateSubCommand nm f).name = c.name := by
  cases c
  refine ⟨?_, rfl, rfl⟩
  simp only [FliCommand.updateSubCommand, FliCommand.getSubCommand,
    FliCommand.withSubCommands, FliCommand.subCommands]
  rw [find?_update_ne _ nm nm2 (fun cSub => f cSub) h]

/-! ### Claim C7: the ParseState step relation -/

/-- The transition relation exactly as spec §3 states it:
`Start → InCommand`; `InCommand → {InOption ⇄ AcceptingValue}` (entered
at `InOption`) or `InArgument`; `InOption|AcceptingValue → Breaking`;
`Breaking → InArgument`; `End` from any non-`Start` state.  This is the
claimed relation, written from the spec's words for comparison with
`ParseState.canGoToNext`. -/
def claimedStepRel (s next : ParseState) : Bool :=
  match s, next with
  | .Start, .InCommand => true
  | .InCommand, .InOption => true
  | .InCommand, .InArgument => true
  | .InOption, .AcceptingValue _ _ => true
  | .AcceptingValue _ _, .InOption => true
  | .InOption, .Breaking => true
  | .AcceptingValue _ _, .Breaking => true
  | .Breaking, .InArgument => true
  | .Start, .End => false
  | _, .End => true
  | _, _ => false

/-- The transitions the code accepts beyond the spec §3 relation. -/
def extraStepRel (s next : ParseState) : Bool :=
  match s, next with
  | .Start, .InOption => true
  | .Start, .InArgument => true
  | .InCommand, .InCommand => true
  | .InOption, .InOption => true
  | .InArgument, .InOption => true
  | .InArgument, .InArgument => true
  | _, _ => false

/-- Claim C7 (corrected), counterexample: the code's transition relation
is not exactly the §3 relation — `Start → InArgument` is outside the
claimed relation, yet `can_go_to_next` accepts it and `set_next_mode`
performs it. -/
theorem claim7_counterexample :
    ParseState.Start.canGoToNext .InArgument = true ∧
    claimedStepRel .Start .InArgument = false ∧
    ParseState.Start.setNextMode .InArgument = .ok .InArgument :=
  ⟨rfl, rfl, rfl⟩

/-- Claim C7 (amended): the step relation of `can_go_to_next` is exactly
the §3 relation extended with `Start→InOption`, `Start→InArgument`,
`InCommand→InCommand`, `InOption→InOption`, `InArgument→InOption` and
`InArgument→InArgument`; `set_next_mode` performs exactly the accepted
transitions and returns a transition error — never a panic, it is a
total function — on every other one. -/
theorem claim7_amended (s next : ParseState) :
    (s.canGoToNext next = (claimedStepRel s next || extraStepRel s next)) ∧
    (s.canGoToNext next = true → s.setNextMode next = .ok next) ∧
    (s.canGoToNext next = false →
      s.setNextMode next =
        .error (.InvalidStateTransition s.stateName next.stateName)) := by
  refine ⟨?_, ?_, ?_⟩
  · cases s <;> cases next <;> rfl
  · intro h
    simp only [ParseState.setNextMode, h, if_true]
  · intro h
    simp only [ParseState.setNextMode, h, Bool.false_eq_true, if_false]

/-- Witness for `claim7_amended` at a concrete transition. -/
theorem claim7_amended_witness :
    ParseState.InOption.setNextMode (.AcceptingValue "-o" (.RequiredSingle (.Str ""))) =
      .ok (.AcceptingValue "-o" (.RequiredSingle (.Str ""))) :=
  (claim7_amended .InOption (.AcceptingValue "-o" (.RequiredSingle (.Str "")))).2.1 rfl

/-! ### Claim C8: prepare is idempotent -/

/-- A successful `prepare` leaves the parser marked prepared. -/
theorem prepare_isPrepared (p p2 : InputArgsParser) (cmd cmd2 : FliCommand)
    (h : p.prepare cmd = .ok (p2, cmd2)) : p2.isPrepared = true := by
  unfold InputArgsParser.prepare at h
  by_cases hp : p.isPrepared
  · rw [if_pos hp] at h
    cases h
    exact hp
  · rw [if_neg hp] at h
    split at h
    · cases h
    · cases h
      rfl

/-- Claim C8 (confirmed): once `prepare()` has completed successfully,
invoking it again with any command node is a no-op: it returns `Ok` with
the parser — hence the command chain, same length and same entries —
unchanged, and the command node is returned unmodified (no registry
mutation). -/
theorem claim8_prepare_idempotent (p p2 : InputArgsParser)
    (cmd cmd2 : FliCommand) (h : p.prepare cmd = .ok (p2, cmd2)) :
    ∀ cmd3 : FliCommand, p2.prepare cmd3 = .ok (p2, cmd3) := by
  intro cmd3
  have hprep := prepare_isPrepared p p2 cmd cmd2 h
  unfold InputArgsParser.prepare
  rw [if_pos hprep]

/-- Witness for `claim8_prepare_idempotent`: a concrete parser prepared
on a fresh command stays fixed under a second `prepare`. -/
theorem claim8_prepare_idempotent_witness :
    ({ command := "t", args := [], commandChain := [],
       isPrepared := true } : InputArgsParser).prepare (FliCommand.new "t" "d") =
      .ok ({ command := "t", args := [], commandChain := [], isPrepared := true },
           FliCommand.new "t" "d") :=
  claim8_prepare_idempotent (InputArgsParser.new "t" [])
    { command := "t", args := [], commandChain := [], isPrepared := true }
    (FliCommand.new "t" "d") (FliCommand.new "t" "d")
    (by simp [InputArgsParser.prepare, prepareRun, prepareLoop, InputArgsParser.new])
    (FliCommand.new "t" "d")

/-! ### Claim C4: preserved options take precedence -/

/-- Claim C4 (confirmed): wherever the loop dispatches a token (states
`InCommand`, `InOption`, `InArgument`; the token is not the break token
and not consumed as a value), the preserved table is consulted first: a
preserved match appends a `PreservedOption` chain entry — never an
`Option` entry — and advances one token, with no condition on the
regular registry; only when no preserved option matches is the regular
registry consulted (flag arity appends `Option`, value arity moves to
`AcceptingValue`); and on a freshly created command, `"help"`, `"-h"`
and `"--help"` all match the preserved help option (exact or
dash-normalized lookup). -/
theorem claim4_preserved_precedence (cmd : FliCommand) (st : ParseState)
    (a : String) (rest : List String) (chain : List CommandChain) (i : Nat)
    (n : String) (v : List String)
    (hst : st = .InCommand ∨ st = .InOption ∨ st = .InArgument)
    (hbrk : a ≠ "--") :
    ((cmd.getPreservedOption a).isSome = true →
      prepareLoop cmd st (a :: rest) chain i n v =
        prepareLoop cmd .InOption rest (chain ++ [.IsPreservedOption a]) (i + 1) n v) ∧
    (cmd.getPreservedOption a = none → cmd.hasOption a = true →
      cmd.optionRegistry.getOptionExpectedValueType a = some .None →
      prepareLoop cmd st (a :: rest) chain i n v =
        prepareLoop cmd .InOption rest (chain ++ [.Option a .None]) (i + 1) n v) ∧
    (cmd.getPreservedOption a = none → ∀ vt : ValueTypes, vt ≠ .None →
      cmd.optionRegistry.getOptionExpectedValueType a = some vt →
      cmd.hasOption a = true →
      prepareLoop cmd st (a :: rest) chain i n v =
        prepareLoop cmd (.AcceptingValue a vt) rest chain (i + 1) n v) ∧
    (∀ nm ds : String,
      ((FliCommand.new nm ds).getPreservedOption "help").isSome = true ∧
      ((FliCommand.new nm ds).getPreservedOption "-h").isSome = true ∧
      ((FliCommand.new nm ds).getPreservedOption "--help").isSome = true) := by
  have hdisp : prepareLoop cmd st (a :: rest) chain i n v =
      processToken cmd st a rest chain i n v :=
    prepareLoop_dispatch cmd st a rest chain i n v hbrk
      (by rcases hst with h | h | h <;> subst h <;> simp)
  have hio : st.canGoToNext .InOption = true := by
    rcases hst with h | h | h <;> subst h <;> rfl
  refine ⟨?_, ?_, ?_, ?_⟩
  · intro hpres
    rw [hdisp]
    exact processToken_preserved cmd st a rest chain i n v hpres hio
  · intro hpres hopt hvt
    rw [hdisp]
    exact processToken_option_flag cmd st a rest chain i n v hpres hopt hvt hio
  · intro hpres vt hvtne hvt hopt
    rw [hdisp]
    exact processToken_option_value cmd st a rest chain i n v vt hpres hopt hvt hvtne hio
  · intro nm ds
    refine ⟨?_, ?_, ?_⟩ <;> simp [FliCommand.getPreservedOption]

/-- Witness for `claim4_preserved_precedence`: the help flag of a fresh
command is parsed as a preserved option even though it is also a
registered regular option. -/
theorem claim4_preserved_precedence_witness :
    prepareLoop (FliCommand.new "t" "d") .InCommand ["-h"] [] 0 "t" ["-h"] =
      prepareLoop (FliCommand.new "t" "d") .InOption []
        [.IsPreservedOption "-h"] 1 "t" ["-h"] :=
  (claim4_preserved_precedence (FliCommand.new "t" "d") .InCommand "-h" [] [] 0
    "t" ["-h"] (Or.inl rfl) (by decide)).1 (by simp [FliCommand.getPreservedOption])

/-! ### Concrete fixtures

The command of spec §8: flag `-v` (None arity), `-o`/`--output`
(RequiredSingle string), `-f` (RequiredMultiple, no fixed count), and a
child command `start` owning `-p` (RequiredSingle integer). -/

/-- Root of the §8 scenario without children. -/
def specCmdFlat : FliCommand :=
  (((FliCommand.new "app" "spec scenario").addOption "verbose" "verbose" "-v"
      "--verbose" .None).addOption "output" "output file" "-o" "--output"
      (.RequiredSingle (.Str ""))).addOption "files" "input files" "-f" "--files"
      (.RequiredMultiple [] none)

/-- Root of the §8 scenario with the `start` child. -/
def specCmd : FliCommand :=
  (specCmdFlat.subcommand "start" "start service").updateSubCommand "start"
    (fun c => c.addOption "port" "port" "-p" "--port" (.RequiredSingle (.Int 0)))

/-- A root expecting zero positional arguments with children `start` and
`stop` (scenario 6 of spec §8). -/
def startStopCmd : FliCommand :=
  ((FliCommand.new "app" "root").subcommand "start" "start service").subcommand
    "stop" "stop service"

/-- A command with a `None`-arity flag that expects one positional
argument. -/
def flagThenArgCmd : FliCommand :=
  (((FliCommand.new "t" "d").addOption "verbose" "verbose" "-v" "--verbose"
    .None).setExpectedPositionalArgs 1)

/-! ### Claim C5: unknown tokens where a command name is expected -/

/-- Claim C5 (corrected), counterexample: for a token that matches
nothing, when the node expects a positional argument and the parser is
in `InOption` (the token follows a completed option), the claim says the
token is appended as an `Argument` entry, but `prepare()` fails: the
entry is pushed and then the `InOption → InArgument` transition is
rejected. -/
theorem claim5_counterexample :
    (InputArgsParser.new "t" ["-v", "x"]).prepare flagThenArgCmd =
      .error (.InvalidStateTransition "InOption" "InArgument") := by
  simp [InputArgsParser.prepare, prepareRun, prepareLoop, processToken,
    flagThenArgCmd]

/-- Claim C5 (amended): for a token matching no value position, no
preserved option, no regular option and no child command: when the node
expects zero positional arguments and the parse is at a command position
(state `InCommand`, which holds exactly when no chain entry has been
produced yet or the entry just produced by the enclosing recursion is a
`SubCommand`), `prepare()` returns `UnknownCommand` with the token and
the child names; in particular `["bogus"]` against a root with children
`start`, `stop` and zero expected positionals gives
`UnknownCommand("bogus", ["start","stop"])`.  Otherwise the token is
pushed as an `Argument` entry: parsing continues when the state is
`InCommand` or `InArgument`, but from `InOption` the subsequent
`InOption → InArgument` transition is illegal and `prepare()` fails with
a state-transition error. -/
theorem claim5_amended (cmd : FliCommand) (a : String) (rest : List String)
    (chain : List CommandChain) (i : Nat) (n : String) (v : List String)
    (hbrk : a ≠ "--") (hpres : cmd.getPreservedOption a = none)
    (hopt : cmd.hasOption a = false) (hsub : cmd.getSubCommand a = none) :
    (cmd.expectedPositionalArgs = 0 →
      prepareLoop cmd .InCommand (a :: rest) chain i n v =
        .error (.UnknownCommand a cmd.subCommandNames)) ∧
    (cmd.expectedPositionalArgs = 0 → isSubCommandEntry chain.getLast? = true →
      prepareLoop cmd .InOption (a :: rest) chain i n v =
        .error (.UnknownCommand a cmd.subCommandNames)) ∧
    (cmd.expectedPositionalArgs ≠ 0 →
      prepareLoop cmd .InCommand (a :: rest) chain i n v =
        prepareLoop cmd .InArgument rest (chain ++ [.Argument a]) (i + 1) n v) ∧
    (¬(cmd.expectedPositionalArgs = 0 ∧ isSubCommandEntry chain.getLast? = true) →
      prepareLoop cmd .InArgument (a :: rest) chain i n v =
        prepareLoop cmd .InArgument rest (chain ++ [.Argument a]) (i + 1) n v) ∧
    (¬(cmd.expectedPositionalArgs = 0 ∧ isSubCommandEntry chain.getLast? = true) →
      prepareLoop cmd .InOption (a :: rest) chain i n v =
        .error (.InvalidStateTransition "InOption" "InArgument")) ∧
    ((InputArgsParser.new "app" ["bogus"]).prepare startStopCmd =
      .error (.UnknownCommand "bogus" ["start", "stop"])) := by
  refine ⟨?_, ?_, ?_, ?_, ?_, ?_⟩
  · intro hexp
    rw [prepareLoop_dispatch cmd .InCommand a rest chain i n v hbrk (by simp)]
    exact processToken_unknown cmd .InCommand a rest chain i n v hpres hopt hsub
      hexp (Or.inl rfl)
  · intro hexp hlast
    rw [prepareLoop_dispatch cmd .InOption a rest chain i n v hbrk (by simp)]
    exact processToken_unknown cmd .InOption a rest chain i n v hpres hopt hsub
      hexp (Or.inr hlast)
  · intro hexp
    rw [prepareLoop_dispatch cmd .InCommand a rest chain i n v hbrk (by simp)]
    exact processToken_argument cmd .InCommand a rest chain i n v hpres hopt hsub
      (by intro hcontra; exact hexp hcontra.1) rfl
  · intro hcond
    rw [prepareLoop_dispatch cmd .InArgument a rest chain i n v hbrk (by simp)]
    refine processToken_argument cmd .InArgument a rest chain i n v hpres hopt hsub
      ?_ rfl
    intro hcontra
    rcases hcontra.2 with hbad | hlast
    · cases hbad
    · exact hcond ⟨hcontra.1, hlast⟩
  · intro hcond
    rw [prepareLoop_dispatch cmd .InOption a rest chain i n v hbrk (by simp)]
    refine processToken_argument_illegal cmd .InOption a rest chain i n v hpres
      hopt hsub ?_ rfl
    intro hcontra
    rcases hcontra.2 with hbad | hlast
    · cases hbad
    · exact hcond ⟨hcontra.1, hlast⟩
  · simp [InputArgsParser.prepare, prepareRun, prepareLoop, processToken,
      startStopCmd]

/-- Witness for `claim5_amended`: the concrete §8 scenario 6 input. -/
theorem claim5_amended_witness :
    prepareLoop startStopCmd .InCommand ["bogus"] [] 0 "app" ["bogus"] =
      .error (.UnknownCommand "bogus" ["start", "stop"]) := by
  have h := (claim5_amended startStopCmd "bogus" [] [] 0 "app" ["bogus"]
    (by decide)
    (by simp [startStopCmd, FliCommand.getPreservedOption])
    (by simp [startStopCmd])
    (by simp [startStopCmd])).1
    (by simp [startStopCmd])
  simpa [startStopCmd] using h

/-! ### Claim C1: RequiredSingle value consumption -/

/-- Claim C1 (corrected), counterexample: with `-o` a `RequiredSingle`
option, the input `["-o", "--"]` puts the parser in `AcceptingValue` and
the next token `"--"` is not a recognized option flag; the claim demands
it be re-typed and appended as an Option entry, but `prepare()` instead
intercepts the break token: it succeeds with an empty chain — no Option
entry and no `MissingValue`. -/
theorem claim1_counterexample :
    specCmdFlat.hasOption "--" = false ∧
    (InputArgsParser.new "app" ["-o", "--"]).prepare specCmdFlat =
      .ok ({ command := "app", args := ["-o", "--"], commandChain := [],
             isPrepared := true }, specCmdFlat) := by
  constructor
  · simp [specCmdFlat]
  · simp [InputArgsParser.prepare, prepareRun, prepareLoop, processToken,
      specCmdFlat]

/-- Claim C1 (amended): for a registered `RequiredSingle` option, in
`AcceptingValue`: a next token other than the literal `"--"` that is not
a recognized option flag is re-typed per the option's value variant —
on success it is appended to the chain as an Option entry and committed
into the registry, and a re-type failure propagates the typed parse
error; a next token that is a recognized flag, or end-of-input while
still in `AcceptingValue`, makes `prepare()` return `MissingValue`; and
a next token equal to `"--"` is handled by the break rule first, moving
to Breaking with no entry, no error and no registry change. -/
theorem claim1_amended (cmd : FliCommand) (nm : String) (d : Value)
    (chain : List CommandChain) (i : Nat) (n : String) (v : List String) :
    (∀ a rest, a ≠ "--" → cmd.hasOption a = true →
      prepareLoop cmd (.AcceptingValue nm (.RequiredSingle d)) (a :: rest)
        chain i n v = .error (.MissingValue nm)) ∧
    (∀ a rest val cmd2, a ≠ "--" → cmd.hasOption a = false →
      d.replaceWithExpectedValue a = .ok val →
      cmd.updateOptionValue nm (.RequiredSingle val) = .ok cmd2 →
      prepareLoop cmd (.AcceptingValue nm (.RequiredSingle d)) (a :: rest)
          chain i n v =
        prepareLoop cmd2 .InOption rest
          (chain ++ [.Option nm (.RequiredSingle val)]) (i + 1) n v ∧
      cmd2.optionRegistry.getOptionExpectedValueType nm =
        some (.RequiredSingle val)) ∧
    (∀ a rest e, a ≠ "--" → cmd.hasOption a = false →
      d.replaceWithExpectedValue a = .error e →
      prepareLoop cmd (.AcceptingValue nm (.RequiredSingle d)) (a :: rest)
        chain i n v = .error e) ∧
    (prepareLoop cmd (.AcceptingValue nm (.RequiredSingle d)) [] chain i n v =
      .error (.MissingValue nm)) ∧
    (∀ rest, prepareLoop cmd (.AcceptingValue nm (.RequiredSingle d))
        ("--" :: rest) chain i n v =
      prepareLoop cmd .Breaking rest chain (i + 1) n v) := by
  refine ⟨?_, ?_, ?_, ?_, ?_⟩
  · intro a rest hbrk hopt
    exact prepareLoop_reqSingle_flag cmd nm d a rest chain i n v hbrk hopt
  · intro a rest val cmd2 hbrk hopt hre hupd
    exact ⟨prepareLoop_reqSingle_value cmd cmd2 nm d val a rest chain i n v
        hbrk hopt hre hupd,
      FliCommand.updateOptionValue_lookup_cmd cmd cmd2 nm (.RequiredSingle val) hupd⟩
  · intro a rest e hbrk hopt hre
    exact prepareLoop_reqSingle_badValue cmd nm d e a rest chain i n v hbrk hopt hre
  · exact prepareLoop_nil_required cmd nm _ chain i n v (Or.inl ⟨d, rfl⟩)
  · intro rest
    exact prepareLoop_break_legal cmd _ rest chain i n v rfl

/-- `specCmdFlat` after committing `out.txt` into `-o`. -/
def specCmdFlatOut : FliCommand :=
  (((FliCommand.new "app" "spec scenario").addOption "verbose" "verbose" "-v"
      "--verbose" .None).addOption "output" "output file" "-o" "--output"
      (.RequiredSingle (.Str "out.txt"))).addOption "files" "input files" "-f"
      "--files" (.RequiredMultiple [] none)

/-- Witness for `claim1_amended`: `-o out.txt` on the §8 command commits
the string value. -/
theorem claim1_amended_witness :
    prepareLoop specCmdFlat (.AcceptingValue "-o" (.RequiredSingle (.Str "")))
        ["out.txt"] [] 1 "app" ["-o", "out.txt"] =
      prepareLoop specCmdFlatOut
        .InOption [] [.Option "-o" (.RequiredSingle (.Str "out.txt"))] 2
        "app" ["-o", "out.txt"] ∧
    specCmdFlatOut.optionRegistry.getOptionExpectedValueType "-o" =
      some (.RequiredSingle (.Str "out.txt")) :=
  (claim1_amended specCmdFlat "-o" (.Str "") [] 1 "app"
      ["-o", "out.txt"]).2.1 "out.txt" [] (.Str "out.txt") specCmdFlatOut
      (by decide) (by simp [specCmdFlat]) (by simp)
      (by simp [specCmdFlat, specCmdFlatOut])

/-! ### Claim C9: "--" directly after a RequiredSingle flag -/

/-- Claim C9 (corrected), counterexample: after `-o --`, the required
value is indeed silently dropped, but the claim's final clause — that
all later tokens become `Argument` entries — fails: only the first
post-break token is absorbed; the second (`-v`, a registered flag)
re-enters option parsing and yields an `Option` entry. -/
theorem claim9_counterexample :
    (InputArgsParser.new "app" ["-o", "--", "x", "-v"]).prepare specCmdFlat =
      .ok ({ command := "app", args := ["-o", "--", "x", "-v"],
             commandChain := [.Argument "x", .Option "-v" .None],
             isPrepared := true }, specCmdFlat) := by
  simp [InputArgsParser.prepare, prepareRun, prepareLoop, processToken,
    specCmdFlat]

/-- Claim C9 (amended): when a `RequiredSingle` option's flag is
immediately followed by the literal `"--"`, `prepare()` does not return
`MissingValue` and does not fail on that account: the `"--"` check runs
before the `AcceptingValue` consumption, the state moves to Breaking
with no Option entry appended and the registry untouched, and the
required value is silently dropped.  The token immediately following the
break becomes an `Argument` entry; tokens after that are parsed by the
normal rules again (in particular a registered `None`-arity flag becomes
an `Option` entry), and end of input after the break succeeds with the
chain as built. -/
theorem claim9_amended (cmd : FliCommand) (nm : String) (d : Value)
    (chain : List CommandChain) (i : Nat) (n : String) (v : List String) :
    (∀ rest, prepareLoop cmd (.AcceptingValue nm (.RequiredSingle d))
        ("--" :: rest) chain i n v =
      prepareLoop cmd .Breaking rest chain (i + 1) n v) ∧
    (∀ b rest, b ≠ "--" →
      prepareLoop cmd .Breaking (b :: rest) chain i n v =
        prepareLoop cmd .InArgument rest (chain ++ [.Argument b]) (i + 1) n v) ∧
    (prepareLoop cmd .Breaking [] chain i n v = .ok ⟨chain, cmd, n, v⟩) ∧
    (∀ b rest, b ≠ "--" → cmd.getPreservedOption b = none →
      cmd.hasOption b = true →
      cmd.optionRegistry.getOptionExpectedValueType b = some .None →
      prepareLoop cmd .InArgument (b :: rest) chain i n v =
        prepareLoop cmd .InOption rest (chain ++ [.Option b .None]) (i + 1) n v) := by
  refine ⟨?_, ?_, ?_, ?_⟩
  · intro rest
    exact prepareLoop_break_legal cmd _ rest chain i n v rfl
  · intro b rest hb
    exact prepareLoop_breaking_cons cmd b rest chain i n v hb
  · exact prepareLoop_breaking_nil cmd chain i n v
  · intro b rest hb hpres hopt hvt
    rw [prepareLoop_dispatch cmd .InArgument b rest chain i n v hb (by simp)]
    exact processToken_option_flag cmd .InArgument b rest chain i n v hpres hopt
      hvt rfl

/-- Witness for `claim9_amended` on the §8 command: `-o --` drops the
value and enters Breaking. -/
theorem claim9_amended_witness :
    prepareLoop specCmdFlat (.AcceptingValue "-o" (.RequiredSingle (.Str "")))
        ["--", "x"] [] 1 "app" ["-o", "--", "x"] =
      prepareLoop specCmdFlat .Breaking ["x"] [] 2 "app" ["-o", "--", "x"] :=
  (claim9_amended specCmdFlat "-o" (.Str "") [] 1 "app" ["-o", "--", "x"]).1 ["x"]

/-! ### Claim C2: the break token -/

/-- Claim C2 (corrected), counterexample: the §8 scenario-5 input
`["-v", "--", "file1", "-o"]`.  The claim says every post-break token
becomes an Argument — the chain should be
`[Option(-v), Argument(file1), Argument(-o)]` — but only the first
post-break token is absorbed; `-o` is parsed as an option again and, as
a `RequiredSingle` flag with no following value, `prepare()` fails with
`MissingValue("-o")`. -/
theorem claim2_counterexample :
    (InputArgsParser.new "app" ["-v", "--", "file1", "-o"]).prepare specCmdFlat =
      .error (.MissingValue "-o") := by
  simp [InputArgsParser.prepare, prepareRun, prepareLoop, processToken,
    specCmdFlat]

/-- Claim C2 (amended): the literal `"--"` is accepted exactly from the
states that may enter Breaking (`InOption`/`AcceptingValue`); anywhere
else it is an `UnexpectedToken` error — including Breaking and
`InArgument` themselves, so a second `"--"` after the break fails.  The
token immediately following the break is appended verbatim as an
Argument even when spelled like a registered flag; after that one token
the parser is in `InArgument` and subsequent tokens are dispatched by
the normal rules again, so the break is not absorbing. -/
theorem claim2_amended (cmd : FliCommand) (st : ParseState) :
    (∀ rest chain i n v, st.canGoToNext .Breaking = true →
      prepareLoop cmd st ("--" :: rest) chain i n v =
        prepareLoop cmd .Breaking rest chain (i + 1) n v) ∧
    (∀ rest chain i n v, st.canGoToNext .Breaking = false →
      prepareLoop cmd st ("--" :: rest) chain i n v =
        .error (.UnexpectedToken "--" i)) ∧
    (∀ b rest chain i n v, b ≠ "--" →
      prepareLoop cmd .Breaking (b :: rest) chain i n v =
        prepareLoop cmd .InArgument rest (chain ++ [.Argument b]) (i + 1) n v) ∧
    (∀ rest chain i n v,
      prepareLoop cmd .Breaking ("--" :: rest) chain i n v =
        .error (.UnexpectedToken "--" i)) ∧
    (∀ b rest chain i n v, b ≠ "--" →
      prepareLoop cmd .InArgument (b :: rest) chain i n v =
        processToken cmd .InArgument b rest chain i n v) := by
  refine ⟨?_, ?_, ?_, ?_, ?_⟩
  · intro rest chain i n v hst
    exact prepareLoop_break_legal cmd st rest chain i n v hst
  · intro rest chain i n v hst
    exact prepareLoop_break_illegal cmd st rest chain i n v hst
  · intro b rest chain i n v hb
    exact prepareLoop_breaking_cons cmd b rest chain i n v hb
  · intro rest chain i n v
    exact prepareLoop_break_illegal cmd .Breaking rest chain i n v rfl
  · intro b rest chain i n v hb
    exact prepareLoop_dispatch cmd .InArgument b rest chain i n v hb (by simp)

/-- Witness for `claim2_amended`: the first post-break token `-o` is
absorbed verbatim as an Argument even though it is a registered flag. -/
theorem claim2_amended_witness :
    prepareLoop specCmdFlat .Breaking ["-o"] [.Option "-v" .None] 2 "app"
        ["-v", "--", "-o"] =
      prepareLoop specCmdFlat .InArgument []
        [.Option "-v" .None, .Argument "-o"] 3 "app" ["-v", "--", "-o"] :=
  (claim2_amended specCmdFlat .Breaking).2.2.1 "-o" [] [.Option "-v" .None] 2
    "app" ["-v", "--", "-o"] (by decide)

/-! ### Claim C3: greedy multi-value collection -/

/-- Characterization of the greedy collection: the consumed prefix holds
no recognized flag and no `"--"`, each collected value is the re-typing
of the corresponding consumed token, and collection stops exactly at end
of input, at the count bound, at a recognized flag, or at `"--"`. -/
theorem collectValues_spec (cmd : FliCommand) (ds : List Value) (maxC : Nat) :
    ∀ (args : List String) (cnt : Nat) (vs : List Value) (rest2 : List String),
      collectValues cmd ds maxC cnt args = .ok (vs, rest2) →
      ∃ consumed : List String,
        args = consumed ++ rest2 ∧
        consumed.length = vs.length ∧
        (∀ t ∈ consumed, cmd.hasOption t = false ∧ t ≠ "--") ∧
        (∀ j, j < vs.length →
          (ds.getD (cnt + j) (.Str "")).replaceWithExpectedValue
            (consumed.getD j "") = .ok (vs.getD j (.Str ""))) ∧
        (rest2 = [] ∨ cnt + vs.length ≥ maxC ∨
          ∃ b brest, rest2 = b :: brest ∧ (cmd.hasOption b = true ∨ b = "--")) := by
  intro args
  induction args with
  | nil =>
    intro cnt vs rest2 h
    simp only [collectValues] at h
    cases h
    exact ⟨[], by simp, by simp, by simp, by simp, Or.inl rfl⟩
  | cons a rest ih =>
    intro cnt vs rest2 h
    simp only [collectValues] at h
    by_cases hcnt : cnt < maxC
    · simp only [if_pos hcnt] at h
      by_cases hopt : cmd.hasOption a = true
      · simp only [hopt, if_true] at h
        cases h
        exact ⟨[], by simp, by simp, by simp, by simp,
          Or.inr (Or.inr ⟨a, rest, rfl, Or.inl hopt⟩)⟩
      · simp only [hopt] at h
        by_cases hbrk : a = "--"
        · simp only [if_pos hbrk, Bool.false_eq_true, if_false] at h
          cases h
          exact ⟨[], by simp, by simp, by simp, by simp,
            Or.inr (Or.inr ⟨a, rest, rfl, Or.inr hbrk⟩)⟩
        · simp only [if_neg hbrk, Bool.false_eq_true, if_false] at h
          cases hre : (ds.getD cnt (.Str "")).replaceWithExpectedValue a with
          | error e => rw [hre] at h; cases h
          | ok val =>
            rw [hre] at h
            cases hrec : collectValues cmd ds maxC (cnt + 1) rest with
            | error e => rw [hrec] at h; cases h
            | ok pr =>
              obtain ⟨vs2, r2⟩ := pr
              rw [hrec] at h
              obtain ⟨consumed, hsplit, hlen, hflags, hvals, hstop⟩ :=
                ih (cnt + 1) vs2 r2 hrec
              cases h
              refine ⟨a :: consumed, by simp [hsplit], by simp [hlen], ?_, ?_, ?_⟩
              · intro t ht
                rcases List.mem_cons.mp ht with hta | htc
                · subst hta
                  exact ⟨by simpa using hopt, hbrk⟩
                · exact hflags t htc
              · intro j hj
                cases j with
                | zero => simpa only [Nat.add_zero, List.getD_cons_zero] using hre
                | succ j2 =>
                  have hj2 : j2 < vs2.length := by
                    simpa using hj
                  have hv := hvals j2 hj2
                  have harith : cnt + 1 + j2 = cnt + (j2 + 1) := by omega
                  rw [harith] at hv
                  simpa only [List.getD_cons_succ] using hv
              · rcases hstop with h1 | h2 | h3
                · exact Or.inl h1
                · refine Or.inr (Or.inl ?_)
                  simp only [List.length_cons]
                  omega
                · exact Or.inr (Or.inr h3)
    · simp only [if_neg hcnt] at h
      cases h
      exact ⟨[], by simp, by simp, by simp, by simp, Or.inr (Or.inl (by omega))⟩

/-- Claim C3 (corrected), counterexample: with `-f` a `RequiredMultiple`
option with no expected count, the input `["-f", "--"]` collects zero
values, which the claim says must be an error — but the break handling
intercepts `"--"` before the value collection: `prepare()` succeeds with
an empty chain and no error. -/
theorem claim3_counterexample :
    (InputArgsParser.new "app" ["-f", "--"]).prepare specCmdFlat =
      .ok ({ command := "app", args := ["-f", "--"], commandChain := [],
             isPrepared := true }, specCmdFlat) := by
  simp [InputArgsParser.prepare, prepareRun, prepareLoop, processToken,
    collectValues, specCmdFlat]

/-- Claim C3 (amended): for a registered `RequiredMultiple` option with
optional expected count: after its flag, `prepare()` greedily consumes
and re-types consecutive tokens — stopping exactly at the first
recognized flag, at the literal `"--"`, at end of input, or when the
expected count has been collected — and commits all collected values as
one single Option chain entry with the cursor advanced past them; a
failing re-type propagates; zero collected values is a `MissingValue`
error, and a collected count different from a set expected count is also
a `MissingValue` error, except that a `"--"` standing immediately after
the flag is intercepted by the break handling before collection (no
error, no entry); end of input immediately after the flag is a
`MissingValue` error. -/
theorem claim3_amended (cmd : FliCommand) (nm : String) (ds : List Value)
    (cnt : Option Nat) (chain : List CommandChain) (i : Nat) (n : String)
    (v : List String) :
    (∀ a rest vs rest2, a ≠ "--" →
      collectValues cmd ds (cnt.getD USIZE_MAX) 0 (a :: rest) = .ok (vs, rest2) →
      (∃ consumed : List String,
        a :: rest = consumed ++ rest2 ∧
        consumed.length = vs.length ∧
        (∀ t ∈ consumed, cmd.hasOption t = false ∧ t ≠ "--") ∧
        (rest2 = [] ∨ vs.length ≥ cnt.getD USIZE_MAX ∨
          ∃ b brest, rest2 = b :: brest ∧ (cmd.hasOption b = true ∨ b = "--"))) ∧
      (vs = [] →
        prepareLoop cmd (.AcceptingValue nm (.RequiredMultiple ds cnt))
          (a :: rest) chain i n v = .error (.MissingValue nm)) ∧
      (∀ m, cnt = some m → vs.length ≠ m →
        prepareLoop cmd (.AcceptingValue nm (.RequiredMultiple ds cnt))
          (a :: rest) chain i n v = .error (.MissingValue nm)) ∧
      (vs ≠ [] → (cnt = none ∨ cnt = some vs.length) →
        ∀ cmd2, cmd.updateOptionValue nm (.RequiredMultiple vs cnt) = .ok cmd2 →
          prepareLoop cmd (.AcceptingValue nm (.RequiredMultiple ds cnt))
              (a :: rest) chain i n v =
            prepareLoop cmd2 .InOption rest2
              (chain ++ [.Option nm (.RequiredMultiple vs cnt)])
              (i + vs.length) n v)) ∧
    (∀ a rest e, a ≠ "--" →
      collectValues cmd ds (cnt.getD USIZE_MAX) 0 (a :: rest) = .error e →
      prepareLoop cmd (.AcceptingValue nm (.RequiredMultiple ds cnt))
        (a :: rest) chain i n v = .error e) ∧
    (∀ rest, prepareLoop cmd (.AcceptingValue nm (.RequiredMultiple ds cnt))
        ("--" :: rest) chain i n v =
      prepareLoop cmd .Breaking rest chain (i + 1) n v) ∧
    (prepareLoop cmd (.AcceptingValue nm (.RequiredMultiple ds cnt)) [] chain i n v =
      .error (.MissingValue nm)) := by
  refine ⟨?_, ?_, ?_, ?_⟩
  · intro a rest vs rest2 hbrk hcol
    obtain ⟨consumed, hsplit, hlen, hflags, _hvals, hstop⟩ :=
      collectValues_spec cmd ds (cnt.getD USIZE_MAX) (a :: rest) 0 vs rest2 hcol
    refine ⟨⟨consumed, hsplit, hlen, hflags, ?_⟩, ?_, ?_, ?_⟩
    · rcases hstop with h1 | h2 | h3
      · exact Or.inl h1
      · exact Or.inr (Or.inl (by omega))
      · exact Or.inr (Or.inr h3)
    · intro hvs
      subst hvs
      rw [prepareLoop_reqMultiple_eq cmd nm ds cnt a rest chain i n v [] rest2
        hbrk hcol]
      simp
    · intro m hm hne
      subst hm
      rw [prepareLoop_reqMultiple_eq cmd nm ds (some m) a rest chain i n v vs
        rest2 hbrk hcol]
      have hvs : vs.isEmpty = false ∨ vs.isEmpty = true := by
        cases vs.isEmpty <;> simp
      rcases hvs with hvs | hvs
      · rw [if_neg (by simp [hvs]), if_pos (by simpa using hne)]
      · rw [if_pos hvs]
    · intro hvs hcnt cmd2 hupd
      rw [prepareLoop_reqMultiple_eq cmd nm ds cnt a rest chain i n v vs rest2
        hbrk hcol]
      rw [if_neg (by simpa [List.isEmpty_iff] using hvs), if_neg, hupd]
      rcases hcnt with h1 | h1 <;> simp [h1]
  · intro a rest e hbrk hcol
    exact prepareLoop_reqMultiple_err cmd nm ds cnt a rest chain i n v e hbrk hcol
  · intro rest
    exact prepareLoop_break_legal cmd _ rest chain i n v rfl
  · exact prepareLoop_nil_required cmd nm _ chain i n v (Or.inr ⟨ds, cnt, rfl⟩)

/-- `specCmdFlat` after committing two collected file values. -/
def specCmdFlatFiles : FliCommand :=
  (((FliCommand.new "app" "spec scenario").addOption "verbose" "verbose" "-v"
      "--verbose" .None).addOption "output" "output file" "-o" "--output"
      (.RequiredSingle (.Str ""))).addOption "files" "input files" "-f"
      "--files" (.RequiredMultiple [.Str "a.txt", .Str "b.txt"] none)

/-- Witness for `claim3_amended`: `-f a.txt b.txt` commits both values
as one entry. -/
theorem claim3_amended_witness :
    prepareLoop specCmdFlat
        (.AcceptingValue "-f" (.RequiredMultiple [] none))
        ["a.txt", "b.txt"] [] 1 "app" ["-f", "a.txt", "b.txt"] =
      prepareLoop specCmdFlatFiles .InOption []
        [.Option "-f" (.RequiredMultiple [.Str "a.txt", .Str "b.txt"] none)]
        3 "app" ["-f", "a.txt", "b.txt"] := by
  have h := ((claim3_amended specCmdFlat "-f" [] none [] 1 "app"
      ["-f", "a.txt", "b.txt"]).1 "a.txt" ["b.txt"]
      [.Str "a.txt", .Str "b.txt"] [] (by decide)
      (by simp [collectValues, specCmdFlat])).2.2.2
      (by simp) (Or.inl rfl) specCmdFlatFiles
      (by simp [specCmdFlat, specCmdFlatFiles])
  simpa using h

/-! ### Claim C6: inheritance is a snapshot with no back-channel -/

/-- The record registered for the auto-installed help option. -/
def helpOptionRecord : SingleOption :=
  { name := "help", description := "Display help information",
    shortFlag := "-h", longFlag := "--help", value := .None }

/-- Claim C6 (confirmed): (i) a successful `mark_inheritable` records
the option's index while leaving the option list and children untouched;
(ii) a child created afterwards via `subcommand()` owns a registry that
reports `has_option` for both flags of every inheritable option; (iii) a
child created while the option is not in the inheritable snapshot (and
whose flag is not a help flag) does NOT have it; and (iv) there is no
back-channel: creating a child never touches the parent's own registry,
and mutating one child touches neither the parent's registry nor any
sibling. -/
theorem claim6_inheritance_snapshot (c : FliCommand) :
    (∀ flag c2, c.markInheritable flag = .ok c2 →
      ∃ idx, c.optionRegistry.getOptionPosition flag = some idx ∧
        idx ∈ c2.optionRegistry.inheritableFlags ∧
        c2.optionRegistry.options = c.optionRegistry.options ∧
        c2.subCommands = c.subCommands) ∧
    (∀ idx opt nm ds, idx ∈ c.optionRegistry.inheritableFlags →
      c.optionRegistry.options.get? idx = some opt →
      ∃ child, (c.subcommand nm ds).getSubCommand nm = some child ∧
        child.hasOption opt.shortFlag = true ∧
        child.hasOption opt.longFlag = true) ∧
    (∀ flag nm ds,
      (c.optionRegistry.inheritableOptionsBuilder.build).hasOption flag = false →
      flag ≠ "-h" → flag ≠ "--help" →
      ∃ child, (c.subcommand nm ds).getSubCommand nm = some child ∧
        child.hasOption flag = false) ∧
    (∀ nm ds, (c.subcommand nm ds).optionBuilder = c.optionBuilder) ∧
    (∀ nm nm2 f, nm2 ≠ nm →
      (c.updateSubCommand nm f).getSubCommand nm2 = c.getSubCommand nm2 ∧
      (c.updateSubCommand nm f).optionBuilder = c.optionBuilder) := by
  refine ⟨?_, ?_, ?_, ?_, ?_⟩
  · intro flag c2 h
    cases c with
    | mk nm0 ds0 b0 subs0 cb0 po0 ps0 pl0 e0 io0 =>
      unfold FliCommand.markInheritable at h
      split at h
      case h_2 e heq => cases h
      case h_1 reg heq =>
        cases h
        unfold CommandOptions.markInheritable at heq
        split at heq
        case h_2 => cases heq
        case h_1 idx hpos =>
          refine ⟨idx, hpos, ?_⟩
          split at heq
          · next hcont =>
            cases heq
            exact ⟨by simpa using hcont, rfl, rfl⟩
          · next hcont =>
            cases heq
            exact ⟨by simp, rfl, rfl⟩
  · intro idx opt nm ds hmem hget
    refine ⟨FliCommand.withParserBuilder nm ds
      c.optionRegistry.inheritableOptionsBuilder, ?_, ?_, ?_⟩
    · exact getSubCommand_addSubCommand_self c _
    · have hfold := (inheritFold_hasOption_mem c.optionRegistry.options
        c.optionRegistry.inheritableFlags CommandOptionsBuilder.new idx opt
        hmem hget).1
      have := (CommandOptions.hasOption_addOption
        (c.optionRegistry.inheritableOptionsBuilder.build) helpOptionRecord
        opt.shortFlag).mpr (Or.inr (Or.inr hfold))
      exact this
    · have hfold := (inheritFold_hasOption_mem c.optionRegistry.options
        c.optionRegistry.inheritableFlags CommandOptionsBuilder.new idx opt
        hmem hget).2
      have := (CommandOptions.hasOption_addOption
        (c.optionRegistry.inheritableOptionsBuilder.build) helpOptionRecord
        opt.longFlag).mpr (Or.inr (Or.inr hfold))
      exact this
  · intro flag nm ds hno hh hl
    refine ⟨FliCommand.withParserBuilder nm ds
      c.optionRegistry.inheritableOptionsBuilder, ?_, ?_⟩
    · exact getSubCommand_addSubCommand_self c _
    · have hiff := CommandOptions.hasOption_addOption
        (c.optionRegistry.inheritableOptionsBuilder.build) helpOptionRecord flag
      cases hval : (FliCommand.withParserBuilder nm ds
          c.optionRegistry.inheritableOptionsBuilder).hasOption flag with
      | false => rfl
      | true =>
        exfalso
        have := hiff.mp hval
        rcases this with h1 | h1 | h1
        · exact hh h1
        · exact hl h1
        · rw [hno] at h1
          cases h1
  · intro nm ds
    cases c
    rfl
  · intro nm nm2 f hne
    have := updateSubCommand_frame c nm nm2 f hne
    exact ⟨this.1, this.2.1⟩

/-- A parent with `-v` marked inheritable, for the C6 witness. -/
def inheritParentCmd : FliCommand :=
  ((FliCommand.new "app" "root").addOption "verbose" "verbose" "-v" "--verbose"
    .None)

/-- The parent after marking `-v` inheritable. -/
def inheritParentMarked : FliCommand :=
  (inheritParentCmd.markInheritable "-v").toOption.getD inheritParentCmd

/-- Witness for `claim6_inheritance_snapshot`: a child created after
marking `-v` inheritable reports both of its flags. -/
theorem claim6_inheritance_snapshot_witness :
    ∃ child, (inheritParentMarked.subcommand "start" "s").getSubCommand "start" =
      some child ∧
      child.hasOption "-v" = true ∧ child.hasOption "--verbose" = true := by
  have hmarked : inheritParentCmd.markInheritable "-v" = .ok inheritParentMarked := by
    simp [inheritParentCmd, inheritParentMarked, FliCommand.markInheritable,
      Except.toOption]
  obtain ⟨idx, hpos, hmem, hopts, _⟩ :=
    (claim6_inheritance_snapshot inheritParentCmd).1 "-v" _ hmarked
  have hidx : idx = 1 := by
    have : inheritParentCmd.optionRegistry.getOptionPosition "-v" = some 1 := by
      simp [inheritParentCmd]
    rw [this] at hpos
    cases hpos
    rfl
  subst hidx
  refine (claim6_inheritance_snapshot _).2.1 1
    { name := "verbose", description := "verbose", shortFlag := "-v",
      longFlag := "--verbose", value := .None } "start" "s" hmem ?_
  rw [hopts]
  simp [inheritParentCmd]

/-! ### Claim C10: running an empty parse result is an error -/

/-- Claim C10 (confirmed): when the prepared command chain is empty,
`FliCommand::run` returns `InvalidUsage "No command or arguments
provided"` and invokes no callback (the error return carries no invoked
callback identifiers); by contrast, a non-empty chain with no
subcommand, no preserved flag and no main callback is a silent success
invoking nothing. -/
theorem claim10_run_empty_chain (cmd : FliCommand) (p p2 : InputArgsParser)
    (cmd2 : FliCommand) (h : p.prepare cmd = .ok (p2, cmd2)) :
    (p2.commandChain = [] →
      cmd.run p = .error (.InvalidUsage "No command or arguments provided")) ∧
    (p2.commandChain ≠ [] →
      (scanChainAux p2.commandChain 0 [] none p2.commandChain).nextSubCommand =
        none →
      (scanChainAux p2.commandChain 0 [] none p2.commandChain).preservedOption =
        none →
      cmd2.callback = none → cmd.run p = .ok []) := by
  constructor
  · intro hempty
    unfold FliCommand.run
    rw [h]
    simp [hempty]
  · intro hne hnosub hnopres hnocb
    have hemp : p2.commandChain.isEmpty = false := by
      simpa [List.isEmpty_iff] using hne
    unfold FliCommand.run
    rw [h]
    split
    · next e heq => cases heq
    · next p2x cmd2x heq =>
      injection heq with hpair
      cases hpair
      rw [dif_neg (by simp [hemp])]
      split
      · next subName remaining _idx heq2 =>
        rw [hnosub] at heq2
        cases heq2
      · next heq2 =>
        cases cmd2 with
        | mk a0 b0 c0 d0 cb0 f0 g0 h0 i0 j0 =>
          simp only [FliCommand.callback] at hnocb
          simp only [hnopres, hnocb]
          rfl

/-- Witness for `claim10_run_empty_chain`: an empty token vector yields
an empty chain and `run` fails with `InvalidUsage`. -/
theorem claim10_run_empty_chain_witness :
    (FliCommand.new "t" "d").run (InputArgsParser.new "t" []) =
      .error (.InvalidUsage "No command or arguments provided") :=
  (claim10_run_empty_chain (FliCommand.new "t" "d") (InputArgsParser.new "t" [])
    { command := "t", args := [], commandChain := [], isPrepared := true }
    (FliCommand.new "t" "d")
    (by simp [InputArgsParser.prepare, prepareRun, prepareLoop,
      InputArgsParser.new])).1 rfl

end Fli
